import Mathlib

/-!
Verification of the symbolic-differentiation core of `caffe2/python/core.py`
(the `IR` class, its gradient-accumulation machinery, and the
`GradientRegistry` dispatch).  Blobs are strings, versions are naturals,
operator records carry type / ordered inputs / ordered outputs / an optional
device placement (modelled as `Option Nat`, `none` = the protobuf
`device_option` field unset) and a list of opaque scalar attributes.
Python dicts are modelled as insertion-ordered association lists with
overwriting insertion; `defaultdict` reads that materialise a default entry
are modelled by inserting the default on lookup where the source does so.
RuntimeError / assertion failures are modelled with `Except String`.
-/

deriving instance DecidableEq for Except

/-- Insertion-ordered association-list lookup (Python `d[k]` / `k in d`). -/
def alookup [DecidableEq κ] : List (κ × α) → κ → Option α
  | [], _ => none
  | (k, v) :: rest, s => if k = s then some v else alookup rest s

/-- Insertion-ordered association-list write (Python `d[k] = v`): overwrites
in place if the key is present, appends otherwise. -/
def ainsert [DecidableEq κ] : List (κ × α) → κ → α → List (κ × α)
  | [], k, v => [(k, v)]
  | (k', v') :: rest, k, v =>
    if k' = k then (k, v) :: rest else (k', v') :: ainsert rest k v

/-- An operator record (`caffe2_pb2.OperatorDef` as used by `core.py`):
type string, ordered input blob names, ordered output blob names, the
optional `device_option` field, and scalar arguments such as
`axis=0` / `value=1.0` (floats appear only as the literal 1.0, modelled as
the integer 1). -/
structure Operator where
  type : String
  name : String
  input : List String
  output : List String
  device : Option Nat
  args : List (String × Int)
  deriving Repr, DecidableEq

/-- `CreateOperator` restricted to the fields the differentiation core reads
and writes.  The surrounding device-scope machinery is external; operators
synthesized by the core are built with no explicit `device_option`. -/
def CreateOperator (operatorType : String) (inputs outputs : List String)
    (args : List (String × Int)) (deviceOption : Option Nat) : Operator :=
  { type := operatorType, name := "", input := inputs, output := outputs,
    device := deviceOption, args := args }

/-- A gradient wrapper: Python `None`, a dense blob name, or a sparse
`GradientSlice(indices, values)` pair. -/
inductive Grad where
  | none
  | dense (name : String)
  | sparse (indices : String) (values : String)
  deriving Repr, DecidableEq

/-- Python truthiness of a gradient wrapper (`if not g`): `None` and the
empty dense name are falsy, a `GradientSlice` tuple is always truthy. -/
def gradFalsy : Grad → Bool
  | Grad.none => true
  | Grad.dense s => s = ""
  | Grad.sparse _ _ => false

/-- A recorded gradient generator: `GradGenMeta(grad_op, idx, gradient)` for
dense contributions (`gradient` is the dense blob name), or
`SparseGradGenMeta(grad_op_indices, idx_indices, grad_op_values, idx_values,
gradient)` with `gradient = GradientSlice(gIndices, gValues)`. -/
inductive GenMeta where
  | dense (gradOp : Option Operator) (idx : Nat) (gradient : String)
  | sparse (gradOpIndices : Option Operator) (idxIndices : Nat)
      (gradOpValues : Option Operator) (idxValues : Nat)
      (gIndices : String) (gValues : String)
  deriving Repr, DecidableEq

def genIsDense : GenMeta → Bool
  | GenMeta.dense _ _ _ => true
  | _ => false

def genIsSparse : GenMeta → Bool
  | GenMeta.sparse _ _ _ _ _ _ => true
  | _ => false

/-- One SSA entry: `OpSSA(op, in_versions, out_versions)`. -/
structure OpSSA where
  op : Operator
  inVersions : List (String × Nat)
  outVersions : List (String × Nat)
  deriving Repr, DecidableEq

/-- The `IR` object's mutable state: SSA history, input-usage table
(`input_usages[name][version]` flattened to the key `(name, version)`),
blob frontier, gradient frontier, and the generator ledger
(`gradient_generators[name][version]`, flattened likewise). -/
structure IRState where
  ssa : List OpSSA
  inputUsages : List ((String × Nat) × List Nat)
  frontier : List (String × Nat)
  gradientFrontier : List (String × Nat)
  gradientGenerators : List ((String × Nat) × List GenMeta)
  deriving Repr, DecidableEq

/-- `defaultdict(int)` read of the frontier. -/
def dlookupD (d : List (String × Nat)) (s : String) (dv : Nat) : Nat :=
  (alookup d s).getD dv

/-- Usage list of a versioned blob (`self.input_usages[name][version]`,
empty by `defaultdict`). -/
def usagesOf (ir : IRState) (n : String) (v : Nat) : List Nat :=
  (alookup ir.inputUsages (n, v)).getD []

/-- Generator list of a versioned blob
(`self.gradient_generators[name][version]`, empty by `defaultdict`). -/
def gensOf (ir : IRState) (n : String) (v : Nat) : List GenMeta :=
  (alookup ir.gradientGenerators (n, v)).getD []

/-- `GetIndexFromGradientList`: first index whose wrapper carries `name`
(dense equal, or sparse with matching indices or values), else `none`. -/
def GetIndexFromGradientList (gList : List Grad) (name : String) : Option Nat :=
  go gList 0
where
  go : List Grad → Nat → Option Nat
    | [], _ => none
    | Grad.dense s :: rest, i => if s = name then some i else go rest (i + 1)
    | Grad.sparse gi gv :: rest, i =>
        if gi = name ∨ gv = name then some i else go rest (i + 1)
    | Grad.none :: rest, i => go rest (i + 1)

/-! ### Blob version tracker (`IR.Play`)

In the source the input loop reads `self.frontier[s]` (a `defaultdict(int)`,
so an absent key is materialised at 0) while appending to `input_usages`;
since those reads only ever materialise defaults and never change a present
value, the recorded input version of `s` always equals the pre-operator
frontier value with default 0, which is how `computeInVersions` /
`computeUsages` read it below. -/

/-- The `in_versions` dict built by the input loop of `Play` (`acc` is the
dict being built, in assignment order). -/
def computeInVersionsAux (f : List (String × Nat)) :
    List String → List (String × Nat) → List (String × Nat)
  | [], acc => acc
  | s :: rest, acc =>
    computeInVersionsAux f rest (ainsert acc s (dlookupD f s 0))

def computeInVersions (ins : List String) (f : List (String × Nat)) :
    List (String × Nat) :=
  computeInVersionsAux f ins []

/-- The `input_usages` updates of the input loop of `Play`: each occurrence
of input `s` appends the operator index to the usage list of
`(s, frontier[s])`. -/
def computeUsages (f : List (String × Nat)) (idx : Nat) :
    List String → List ((String × Nat) × List Nat) →
    List ((String × Nat) × List Nat)
  | [], us => us
  | s :: rest, us =>
    computeUsages f idx rest
      (ainsert us (s, dlookupD f s 0)
        ((alookup us (s, dlookupD f s 0)).getD [] ++ [idx]))

/-- Frontier after the input loop of `Play`: each `defaultdict` read
materialises an absent key at version 0. -/
def playInFrontier : List String → List (String × Nat) →
    List (String × Nat)
  | [], f => f
  | s :: rest, f => playInFrontier rest (ainsert f s (dlookupD f s 0))

/-- Output loop of `Play`: a blob already present in the frontier is
incremented, an absent one is materialised at version 0; `out_versions`
records the post-update value. -/
def playOutLoop : List String → List (String × Nat) →
    List (String × Nat) → List (String × Nat) × List (String × Nat)
  | [], f, ov => (f, ov)
  | s :: rest, f, ov =>
    match alookup f s with
    | some v => playOutLoop rest (ainsert f s (v + 1)) (ainsert ov s (v + 1))
    | none => playOutLoop rest (ainsert f s 0) (ainsert ov s 0)

/-- `IR.Play`: record one forward operator into the SSA history. -/
def Play (st : IRState) (op : Operator) : IRState :=
  let inVersions := computeInVersions op.input st.frontier
  let usages' := computeUsages st.frontier st.ssa.length op.input st.inputUsages
  let frontier1 := playInFrontier op.input st.frontier
  let (frontier2, outVersions) := playOutLoop op.output frontier1 []
  { st with
    ssa := st.ssa ++ [⟨op, inVersions, outVersions⟩],
    inputUsages := usages',
    frontier := frontier2 }

def emptyIR : IRState := ⟨[], [], [], [], []⟩

/-- `IR.__init__`: replay the whole forward operator sequence. -/
def replay (operators : List Operator) : IRState :=
  operators.foldl Play emptyIR

/-! ### Liveness check (`IR.CheckGradientOperatorInput`)

The source reads `self.frontier[...]` through the `defaultdict`; the
materialisation of absent keys at 0 is invisible to every later read, so the
model reads with default 0 without mutating.  `str(forward_op)` in the last
error message (the full protobuf text) is abbreviated to the operator type. -/

def CheckGradientOperatorInput (ir : IRState) (gradOpInput : String)
    (gOutput : List Grad) (fwdOpIdx : Nat)
    (locallyGeneratedBlobs : List String) : Except String Unit :=
  match ir.ssa[fwdOpIdx]? with
  | Option.none => Except.error "IndexError: ssa"
  | some entry =>
    match GetIndexFromGradientList gOutput gradOpInput with
    | some originalIndex =>
      -- a dense or sparse gradient name: must match the version of the
      -- corresponding forward output under the gradient frontier
      match entry.op.output[originalIndex]? with
      | Option.none => Except.error "IndexError: output"
      | some originalName =>
        match alookup entry.outVersions originalName,
              alookup ir.gradientFrontier originalName with
        | some ov, some gv =>
          if ov ≠ gv then
            Except.error ("Gradient name \"" ++ gradOpInput ++
              "\" is expected to correspond to version " ++ toString ov ++
              " of \"" ++ originalName ++ "\", but currently we have version "
              ++ toString gv ++ ".")
          else Except.ok ()
        | _, _ => Except.error "KeyError"
    | Option.none =>
      match alookup entry.outVersions gradOpInput with
      | some ov =>
        -- an output name: current frontier must match the recorded version
        if dlookupD ir.frontier gradOpInput 0 ≠ ov then
          Except.error ("Gradient operator needs output \"" ++ gradOpInput ++
            "\" at version " ++ toString ov ++
            ", but currently we have version " ++
            toString (dlookupD ir.frontier gradOpInput 0) ++ ".")
        else Except.ok ()
      | Option.none =>
        match alookup entry.inVersions gradOpInput with
        | some iv =>
          -- an input name: current frontier must match the recorded version
          if dlookupD ir.frontier gradOpInput 0 ≠ iv then
            Except.error ("Gradient operator needs input \"" ++ gradOpInput ++
              "\" at version " ++ toString iv ++
              ", but currently we have version " ++
              toString (dlookupD ir.frontier gradOpInput 0) ++ ".")
          else Except.ok ()
        | Option.none =>
          -- otherwise it must have been generated by a previous gradient
          -- operator of this same forward operator
          if gradOpInput ∈ locallyGeneratedBlobs then Except.ok ()
          else
            Except.error ("Blob name \"" ++ gradOpInput ++
              "\" not in the scope of operator: " ++ entry.op.type ++
              " and is not generated by any of the local gradient operators.")

/-! ### Generator ledger updates (`IR.BuildGradientGenerators`) -/

/-- Append a generator to a versioned blob's ledger list. -/
def recordGen (gens : List ((String × Nat) × List GenMeta))
    (k : String × Nat) (m : GenMeta) : List ((String × Nat) × List GenMeta) :=
  ainsert gens k ((alookup gens k).getD [] ++ [m])

/-- Step (1) of `BuildGradientGenerators`: check every input of a gradient
operator. -/
def checkInputsLoop (ir : IRState) (gOutput : List Grad) (fwdOpIdx : Nat)
    (locals : List String) : List String → Except String Unit
  | [] => Except.ok ()
  | s :: rest =>
    match CheckGradientOperatorInput ir s gOutput fwdOpIdx locals with
    | Except.error e => Except.error e
    | Except.ok _ => checkInputsLoop ir gOutput fwdOpIdx locals rest

/-- Step (2) of `BuildGradientGenerators`: record each gradient-operator
output that corresponds to an input gradient — a partial
`SparseGradGenMeta` into the local `sparse_generators` table for sparse
wrappers, a `GradGenMeta` straight into the ledger for dense ones. -/
def buildOutputsLoop (entry : OpSSA) (gInput : List Grad) (gradOp : Operator) :
    List (Nat × String) → List ((String × Nat) × List GenMeta) →
    List ((String × Nat) × List GenMeta) →
    Except String
      (List ((String × Nat) × List GenMeta) ×
        List ((String × Nat) × List GenMeta))
  | [], sg, gg => Except.ok (sg, gg)
  | (i, output) :: rest, sg, gg =>
    match GetIndexFromGradientList gInput output with
    | Option.none => buildOutputsLoop entry gInput gradOp rest sg gg
    | some inputIndex =>
      match entry.op.input[inputIndex]? with
      | Option.none => Except.error "IndexError: input"
      | some inputName =>
        match alookup entry.inVersions inputName with
        | Option.none => Except.error "KeyError: in_versions"
        | some inputVersion =>
          match gInput[inputIndex]? with
          | some (Grad.sparse gi gv) =>
            if gi = output then
              buildOutputsLoop entry gInput gradOp rest
                (recordGen sg (inputName, inputVersion)
                  (GenMeta.sparse (some gradOp) i Option.none 0 gi gv)) gg
            else if gv = output then
              buildOutputsLoop entry gInput gradOp rest
                (recordGen sg (inputName, inputVersion)
                  (GenMeta.sparse Option.none 0 (some gradOp) i gi gv)) gg
            else Except.error "AssertionError: g.values == output"
          | some (Grad.dense s) =>
            buildOutputsLoop entry gInput gradOp rest sg
              (recordGen gg (inputName, inputVersion)
                (GenMeta.dense (some gradOp) i s))
          | _ => Except.error "AssertionError: matched gradient is empty"

/-- The loop of `BuildGradientGenerators` over the gradient operators:
check inputs against the blobs generated so far, extend
`locally_generated_blobs` with the operator's outputs, then record its
output gradients. -/
def buildGradOpsLoop (ir : IRState) (entry : OpSSA) (gOutput gInput : List Grad)
    (fwdOpIdx : Nat) :
    List Operator → List String → List ((String × Nat) × List GenMeta) →
    List ((String × Nat) × List GenMeta) →
    Except String
      (List String × List ((String × Nat) × List GenMeta) ×
        List ((String × Nat) × List GenMeta))
  | [], locals, sg, gg => Except.ok (locals, sg, gg)
  | gradOp :: rest, locals, sg, gg =>
    match checkInputsLoop ir gOutput fwdOpIdx locals gradOp.input with
    | Except.error e => Except.error e
    | Except.ok _ =>
      let locals' := locals ++ gradOp.output
      match buildOutputsLoop entry gInput gradOp gradOp.output.enum sg gg with
      | Except.error e => Except.error e
      | Except.ok (sg', gg') =>
        buildGradOpsLoop ir entry gOutput gInput fwdOpIdx rest locals' sg' gg'

/-- `IR.AppendSparseGenerators`: merge the partial indices/values generators
of each versioned blob (one partial stays as is, two are merged after the
source's assertions) and append them to the ledger.  The source iterates the
name→version→list nested dicts; as all appends target distinct ledger keys,
iterating the flattened `(name, version)` table in insertion order is
observationally the same. -/
def AppendSparseGenerators :
    List ((String × Nat) × List GenMeta) →
    List ((String × Nat) × List GenMeta) →
    Except String (List ((String × Nat) × List GenMeta))
  | [], gg => Except.ok gg
  | (k, [g]) :: rest, gg => AppendSparseGenerators rest (recordGen gg k g)
  | (k, [GenMeta.sparse o1i i1i o1v i1v gi1 gv1,
         GenMeta.sparse o2i i2i o2v i2v gi2 gv2]) :: rest, gg =>
    if gi1 = gi2 ∧ gv1 = gv2 then
      if o1i = Option.none ∨ o2i = Option.none then
        if o1v = Option.none ∨ o2v = Option.none then
          if i1i = 0 ∨ i2i = 0 then
            if i1v = 0 ∨ i2v = 0 then
              AppendSparseGenerators rest
                (recordGen gg k
                  (GenMeta.sparse (o1i.orElse fun _ => o2i) (i1i + i2i)
                    (o1v.orElse fun _ => o2v) (i1v + i2v) gi1 gv1))
            else Except.error "AssertionError: idx1_v == 0 or idx2_v == 0"
          else Except.error "AssertionError: idx1_i == 0 or idx2_i == 0"
        else Except.error "AssertionError: op1_v is None or op2_v is None"
      else Except.error "AssertionError: op1_i is None or op2_i is None"
    else Except.error "AssertionError: g1 == g2"
  | (_, _) :: _, _ => Except.error "AssertionError: len(generators) == 2"

/-- Step (4) of `BuildGradientGenerators`: for input gradients passed
through directly (not produced by any local gradient operator), record a
generator with no producing operator. -/
def buildPassthroughLoop (entry : OpSSA) :
    List (Nat × Grad) → List String → List ((String × Nat) × List GenMeta) →
    Except String (List ((String × Nat) × List GenMeta))
  | [], _, gg => Except.ok gg
  | (inputIndex, g) :: rest, locals, gg =>
    match entry.op.input[inputIndex]? with
    | Option.none => Except.error "IndexError: input"
    | some inputName =>
      match alookup entry.inVersions inputName with
      | Option.none => Except.error "KeyError: in_versions"
      | some inputVersion =>
        if gradFalsy g then buildPassthroughLoop entry rest locals gg
        else
          match g with
          | Grad.sparse gi gv =>
            if gi ∉ locals ∧ gv ∉ locals then
              buildPassthroughLoop entry rest locals
                (recordGen gg (inputName, inputVersion)
                  (GenMeta.sparse Option.none 0 Option.none 0 gi gv))
            else buildPassthroughLoop entry rest locals gg
          | Grad.dense s =>
            if s ∉ locals then
              buildPassthroughLoop entry rest locals
                (recordGen gg (inputName, inputVersion)
                  (GenMeta.dense Option.none 0 s))
            else buildPassthroughLoop entry rest locals gg
          | Grad.none => buildPassthroughLoop entry rest locals gg

/-- Final step of `BuildGradientGenerators`: move the gradient frontier of
every input that received a non-`None` gradient to the input's version. -/
def buildFrontierLoop (entry : OpSSA) :
    List (Nat × Grad) → List (String × Nat) →
    Except String (List (String × Nat))
  | [], gf => Except.ok gf
  | (i, g) :: rest, gf =>
    if g = Grad.none then buildFrontierLoop entry rest gf
    else
      match entry.op.input[i]? with
      | Option.none => Except.error "IndexError: input"
      | some inputName =>
        match alookup entry.inVersions inputName with
        | Option.none => Except.error "KeyError: in_versions"
        | some inputVersion =>
          buildFrontierLoop entry rest (ainsert gf inputName inputVersion)

/-- `IR.BuildGradientGenerators`: validate the gradient operators of one
forward operator and update the generator ledger and gradient frontier. -/
def BuildGradientGenerators (ir : IRState) (fwdOpIdx : Nat)
    (gradientOps : List Operator) (gOutput gInput : List Grad) :
    Except String IRState :=
  match ir.ssa[fwdOpIdx]? with
  | Option.none => Except.error "IndexError: ssa"
  | some entry =>
    match buildGradOpsLoop ir entry gOutput gInput fwdOpIdx gradientOps
        [] [] ir.gradientGenerators with
    | Except.error e => Except.error e
    | Except.ok (locals, sparseGens, gg1) =>
      match AppendSparseGenerators sparseGens gg1 with
      | Except.error e => Except.error e
      | Except.ok gg2 =>
        match buildPassthroughLoop entry gInput.enum locals gg2 with
        | Except.error e => Except.error e
        | Except.ok gg3 =>
          match buildFrontierLoop entry gInput.enum ir.gradientFrontier with
          | Except.error e => Except.error e
          | Except.ok gf' =>
            Except.ok { ir with gradientGenerators := gg3,
                                gradientFrontier := gf' }


/-! ### Accumulation synthesizer -/

/-- The `remove_suffix` helper nested in `_GetSumOpOutputName`
(`s[:-len(suffix)]` when `s` ends with `suffix`; Python's negative-slice
quirk makes an empty suffix truncate everything, reproduced here although
the call sites only use the nonempty suffixes "_indices" / "_values"). -/
def removeSuffix (s suffix : String) : String :=
  if suffix.data.isSuffixOf s.data then
    ⟨s.data.take (if suffix.data.isEmpty then 0 else
      s.data.length - suffix.data.length)⟩
  else s

/-- `IR._GetSumOpOutputName`: the first generator with a producing operator
supplies the base name (a sparse indices/values producer's output has its
"_indices" / "_values" suffix stripped); with no producer the base name is
`<input>_grad`. -/
def _GetSumOpOutputName : List GenMeta → String → String
  | [], inputName => inputName ++ "_grad"
  | GenMeta.dense (some gradOp) idx _ :: _, _ => gradOp.output.getD idx ""
  | GenMeta.dense Option.none _ _ :: rest, inputName =>
      _GetSumOpOutputName rest inputName
  | GenMeta.sparse (some opI) idxI _ _ _ _ :: _, _ =>
      removeSuffix (opI.output.getD idxI "") "_indices"
  | GenMeta.sparse Option.none _ (some opV) idxV _ _ :: _, _ =>
      removeSuffix (opV.output.getD idxV "") "_values"
  | GenMeta.sparse Option.none _ Option.none _ _ _ :: rest, inputName =>
      _GetSumOpOutputName rest inputName

/-- The producing operator `_SetSumOpsDeviceOption` inspects for a
generator: `grad_op` for dense, `grad_op_values or grad_op_indices` for
sparse. -/
def genGradOpForDevice : GenMeta → Option Operator
  | GenMeta.dense gradOp _ _ => gradOp
  | GenMeta.sparse oI _ oV _ _ _ => oV.orElse fun _ => oI

/-- `IR._SetSumOpsDeviceOption`: stop at the first generator that has a
producing operator; copy that operator's `device_option` onto every sum op
if (and only if) it has one set. -/
def _SetSumOpsDeviceOption (sumOps : List Operator) :
    List GenMeta → List Operator
  | [] => sumOps
  | g :: rest =>
    match genGradOpForDevice g with
    | Option.none => _SetSumOpsDeviceOption sumOps rest
    | some gradOp =>
      match gradOp.device with
      | some d => sumOps.map fun op => { op with device := some d }
      | Option.none => sumOps

/-- `IR._DisambiguateGradOpOutput`: rename the producing operator's output
in place to `_<name>_autosplit_<cnt>` and return the new name with the
incremented counter. -/
def _DisambiguateGradOpOutput (gradOp : Operator) (idx cnt : Nat) :
    Operator × String × Nat :=
  let newName := "_" ++ gradOp.output.getD idx "" ++ "_autosplit_" ++
    toString cnt
  ({ gradOp with output := gradOp.output.set idx newName }, newName, cnt + 1)

/-- `IR._CheckSumOpsConflict`: a passthrough gradient name may not equal the
chosen accumulation base name. -/
def _CheckSumOpsConflict (outBaseName g : String) : Except String Unit :=
  if outBaseName = g then
    Except.error ("The gradient output of empty gradient op can not be the " ++
      "same as the normal name of the current input gradient.")
  else Except.ok ()

/-- The loop of `_MakeDenseSumOps`: produced contributions are
autosplit-renamed (in place in the source — the renamed generators are the
first component), passthrough contributions keep their literal name after
the collision check.  A sparse generator in this loop is the source's
3-tuple-unpack `ValueError`. -/
def denseSumLoop : List GenMeta → String → Nat →
    Except String (List GenMeta × List String)
  | [], _, _ => Except.ok ([], [])
  | GenMeta.dense (some gradOp) idx g :: rest, outBaseName, cnt =>
    let r := _DisambiguateGradOpOutput gradOp idx cnt
    (match denseSumLoop rest outBaseName r.2.2 with
     | Except.error e => Except.error e
     | Except.ok (gens, ins) =>
       Except.ok (GenMeta.dense (some r.1) idx g :: gens, r.2.1 :: ins))
  | GenMeta.dense Option.none idx g :: rest, outBaseName, cnt =>
    (match _CheckSumOpsConflict outBaseName g with
     | Except.error e => Except.error e
     | Except.ok _ =>
       match denseSumLoop rest outBaseName cnt with
       | Except.error e => Except.error e
       | Except.ok (gens, ins) =>
         Except.ok (GenMeta.dense Option.none idx g :: gens, g :: ins))
  | GenMeta.sparse _ _ _ _ _ _ :: _, _, _ =>
    Except.error "ValueError: sparse generator in dense sum"

/-- `IR._MakeDenseSumOps`: one `Sum` operator over all contributions,
producing the base name. -/
def _MakeDenseSumOps (generators : List GenMeta) (outBaseName : String) :
    Except String (List GenMeta × List Operator × String) :=
  match denseSumLoop generators outBaseName 0 with
  | Except.error e => Except.error e
  | Except.ok (gens, sumOpInput) =>
    Except.ok (gens,
      [CreateOperator "Sum" sumOpInput [outBaseName] [] Option.none],
      outBaseName)

/-- The loop of `_MakeSparseSumOps`: resolve each generator's indices and
values contributions with two independent autosplit counters.  A dense
generator here is the source's `assert(type(generator) is
SparseGradGenMeta)` failure. -/
def sparseSumLoop : List GenMeta → String → Nat → Nat →
    Except String (List GenMeta × List String × List String)
  | [], _, _, _ => Except.ok ([], [], [])
  | GenMeta.sparse oI iI oV iV gi gv :: rest, outBaseName, cntI, cntV =>
    (match oI with
     | some opI =>
       let rI := _DisambiguateGradOpOutput opI iI cntI
       (match oV with
        | some opV =>
          let rV := _DisambiguateGradOpOutput opV iV cntV
          (match sparseSumLoop rest outBaseName rI.2.2 rV.2.2 with
           | Except.error e => Except.error e
           | Except.ok (gens, insI, insV) =>
             Except.ok (GenMeta.sparse (some rI.1) iI (some rV.1) iV gi gv ::
               gens, rI.2.1 :: insI, rV.2.1 :: insV))
        | Option.none =>
          match _CheckSumOpsConflict outBaseName gv with
          | Except.error e => Except.error e
          | Except.ok _ =>
            match sparseSumLoop rest outBaseName rI.2.2 cntV with
            | Except.error e => Except.error e
            | Except.ok (gens, insI, insV) =>
              Except.ok (GenMeta.sparse (some rI.1) iI Option.none iV gi gv ::
                gens, rI.2.1 :: insI, gv :: insV))
     | Option.none =>
       match _CheckSumOpsConflict outBaseName gi with
       | Except.error e => Except.error e
       | Except.ok _ =>
         match oV with
         | some opV =>
           let rV := _DisambiguateGradOpOutput opV iV cntV
           (match sparseSumLoop rest outBaseName cntI rV.2.2 with
            | Except.error e => Except.error e
            | Except.ok (gens, insI, insV) =>
              Except.ok (GenMeta.sparse Option.none iI (some rV.1) iV gi gv ::
                gens, gi :: insI, rV.2.1 :: insV))
         | Option.none =>
           match _CheckSumOpsConflict outBaseName gv with
           | Except.error e => Except.error e
           | Except.ok _ =>
             match sparseSumLoop rest outBaseName cntI cntV with
             | Except.error e => Except.error e
             | Except.ok (gens, insI, insV) =>
               Except.ok (GenMeta.sparse Option.none iI Option.none iV gi gv ::
                 gens, gi :: insI, gv :: insV))
  | GenMeta.dense _ _ _ :: _, _, _, _ =>
    Except.error "AssertionError: type(generator) is SparseGradGenMeta"

/-- `IR._MakeSparseSumOps`: two `Concat` operators along axis 0 — one over
the indices contributions, one over the values contributions — whose first
outputs form the resulting sparse wrapper. -/
def _MakeSparseSumOps (generators : List GenMeta) (outBaseName : String) :
    Except String (List GenMeta × List Operator × Grad) :=
  match sparseSumLoop generators outBaseName 0 0 with
  | Except.error e => Except.error e
  | Except.ok (gens, indicesConcatInput, valuesConcatInput) =>
    let indicesConcatOutput := outBaseName ++ "_indices_concat"
    let indicesConcatSplit := outBaseName ++ "_indices_concat_split"
    let valuesConcatOutput := outBaseName ++ "_values_concat"
    let valuesConcatSplit := outBaseName ++ "_values_concat_split"
    -- no deduplication of repeated indices is performed here
    Except.ok (gens,
      [CreateOperator "Concat" indicesConcatInput
        [indicesConcatOutput, indicesConcatSplit] [("axis", 0)] Option.none,
       CreateOperator "Concat" valuesConcatInput
        [valuesConcatOutput, valuesConcatSplit] [("axis", 0)] Option.none],
      Grad.sparse indicesConcatOutput valuesConcatOutput)

/-- `all_gradient_names` of `_VerifyGradientGenerators`: the stored gradient
name of every dense generator with a producing operator, and the values name
of every sparse generator with a values-producing operator. -/
def verifyNames : List GenMeta → List String
  | [] => []
  | GenMeta.dense (some _) _ g :: rest => g :: verifyNames rest
  | GenMeta.dense Option.none _ _ :: rest => verifyNames rest
  | GenMeta.sparse _ _ (some _) _ _ gv :: rest => gv :: verifyNames rest
  | GenMeta.sparse _ _ Option.none _ _ _ :: rest => verifyNames rest

/-- `all_device_options` of `_VerifyGradientGenerators`: the `device_option`
of every producing operator (for sparse generators, indices producer first,
then values producer).  `Option Nat` equality is the protobuf message
equality, which distinguishes an unset field from a set one. -/
def verifyDevices : List GenMeta → List (Option Nat)
  | [] => []
  | GenMeta.dense (some op) _ _ :: rest => op.device :: verifyDevices rest
  | GenMeta.dense Option.none _ _ :: rest => verifyDevices rest
  | GenMeta.sparse oI _ oV _ _ _ :: rest =>
    (match oI with | some op => [op.device] | Option.none => []) ++
    (match oV with | some op => [op.device] | Option.none => []) ++
    verifyDevices rest

/-- Whether every element of a list equals its head (`len(set(l)) <= 1`
resp. `all(d == l[0] for d in l[1:])`). -/
def listAllEq [DecidableEq α] : List α → Bool
  | [] => true
  | x :: xs => xs.all fun y => y = x

/-- `IR._VerifyGradientGenerators`: reject a dense/sparse mix, report
`false` (no sum needed) for fewer than two generators, then require all
produced gradient names equal and all producing-operator device options
equal. -/
def _VerifyGradientGenerators (generator : List GenMeta) :
    Except String Bool :=
  if generator.any genIsDense ∧ generator.any genIsSparse then
    Except.error ("Automatic aggregation of a mix of sparse and dense " ++
      "gradients is not supported yet")
  else if generator.length < 2 then Except.ok false
  else if ¬ listAllEq (verifyNames generator) then
    Except.error ("Unexpected behavior: not all grad output names are " ++
      "the same.")
  else if ¬ listAllEq (verifyDevices generator) then
    Except.error "Unexpected behavior: not all grad opshave the same device option."
  else Except.ok true

/-- `IR._MakeSumOps`: look up the ledger, choose the base name, dispatch on
the (homogeneous) generator kind, and stamp the synthesized operators'
device option.  The renamed generators (mutated in place in the source) are
dropped here; the claims about the renames are stated against
`_MakeDenseSumOps` / `_MakeSparseSumOps` directly. -/
def _MakeSumOps (ir : IRState) (inputName : String) (inputVersion : Nat) :
    Except String (List Operator × Grad) :=
  let generators := gensOf ir inputName inputVersion
  let outBaseName := _GetSumOpOutputName generators inputName
  if generators.any genIsDense ∧ generators.any genIsSparse then
    Except.error "AssertionError: len(types) == 1"
  else if generators.isEmpty then
    Except.error "AssertionError: len(types) == 1"
  else if generators.all genIsDense then
    match _MakeDenseSumOps generators outBaseName with
    | Except.error e => Except.error e
    | Except.ok (_, sumOps, name) =>
      Except.ok (_SetSumOpsDeviceOption sumOps generators, Grad.dense name)
  else
    match _MakeSparseSumOps generators outBaseName with
    | Except.error e => Except.error e
    | Except.ok (_, sumOps, g) =>
      Except.ok (_SetSumOpsDeviceOption sumOps generators, g)

/-- First-occurrence deduplication, modelling the iteration of
`set(forward_op.input)` in `DoGradientAccumulation` (the Python set order is
unspecified; each name is processed independently, so only the relative
order of sum operators of different names depends on it). -/
def dedupAux : List String → List String → List String
  | [], _ => []
  | s :: rest, seen =>
    if s ∈ seen then dedupAux rest seen else s :: dedupAux rest (s :: seen)

def dedupInputs (l : List String) : List String := dedupAux l []

/-- The loop of `DoGradientAccumulation` over the distinct input names of
the forward operator: skip a name unless its versioned usage list has more
than one entry and this operator is its first consumer; then verify the
generator ledger (errors are wrapped with the parameter name) and, if a
merge is needed, synthesize the sum operators. -/
def accumLoop (ir : IRState) (fwdOpIdx : Nat) (entry : OpSSA) :
    List String →
    Except String (List Operator × List (String × Grad))
  | [] => Except.ok ([], [])
  | n :: rest =>
    match alookup entry.inVersions n with
    | Option.none => Except.error "KeyError: in_versions"
    | some v =>
      let inputUsage := usagesOf ir n v
      if inputUsage.length ≤ 1 ∨ inputUsage.head? ≠ some fwdOpIdx then
        accumLoop ir fwdOpIdx entry rest
      else
        match _VerifyGradientGenerators (gensOf ir n v) with
        | Except.error err =>
          Except.error ("Gradients for param ''" ++ n ++
            "'' failed to verify: " ++ err)
        | Except.ok false => accumLoop ir fwdOpIdx entry rest
        | Except.ok true =>
          match _MakeSumOps ir n v with
          | Except.error e => Except.error e
          | Except.ok (sumOps, g) =>
            match accumLoop ir fwdOpIdx entry rest with
            | Except.error e => Except.error e
            | Except.ok (ops, gradMap) =>
              Except.ok (sumOps ++ ops, (n, g) :: gradMap)

/-- `IR.DoGradientAccumulation`: returns the synthesized sum operators and
the per-name unified gradient map. -/
def DoGradientAccumulation (ir : IRState) (fwdOpIdx : Nat) :
    Except String (List Operator × List (String × Grad)) :=
  match ir.ssa[fwdOpIdx]? with
  | Option.none => Except.error "IndexError: ssa"
  | some entry => accumLoop ir fwdOpIdx entry (dedupInputs entry.op.input)

/-! ### Gradient dispatch (`GradientRegistry.GetGradientForOp`) -/

/-- What a gradient rule returns as its operator part: Python `None`, a
single operator record, or a list of them. -/
inductive GradOpsResult where
  | noneOps
  | single (op : Operator)
  | list (ops : List Operator)
  deriving Repr, DecidableEq

/-- The normalization at the end of `GetGradientForOp`: `None` becomes the
empty list, a single operator a one-element list. -/
def normalizeGradOps : GradOpsResult → List Operator
  | GradOpsResult.noneOps => []
  | GradOpsResult.single op => [op]
  | GradOpsResult.list l => l

/-- `GradientRegistry.GetGradientForOp`.  The native C++ path
(`_GetGradientForOpCC`) is an external collaborator, passed in as a fallible
function; the Python fallback registry is the explicit association list
`registry` keyed by operator type. -/
def GetGradientForOp
    (native : Operator → List Grad →
      Except String (GradOpsResult × List Grad))
    (registry : List (String × (Operator → List Grad →
      GradOpsResult × List Grad)))
    (op : Operator) (gOutput : List Grad) :
    Except String (List Operator × List Grad) :=
  match native op gOutput with
  | Except.ok r => Except.ok (normalizeGradOps r.1, r.2)
  | Except.error e =>
    match alookup registry op.type with
    | some rule =>
      let r := rule op gOutput
      Except.ok (normalizeGradOps r.1, r.2)
    | Option.none =>
      Except.error ("No gradient registered for " ++ op.type ++
        ". Exception from creating the gradient op: " ++ e ++ ".")

/-! ### Backward-pass initialisation -/

/-- `IR._GetInitGradients`: `None`-seeded targets get a `ConstantFill`
operator with fill value 1 producing `<y>_autogen_grad`, whose output
becomes the seed wrapper; explicitly seeded targets pass their wrapper
through. -/
def _GetInitGradients : List (String × Grad) →
    List (String × Grad) × List Operator
  | [] => ([], [])
  | (y, Grad.none) :: rest =>
    let autogradOp :=
      CreateOperator "ConstantFill" [y] [y ++ "_autogen_grad"]
        [("value", 1)] Option.none
    let r := _GetInitGradients rest
    ((y, Grad.dense (y ++ "_autogen_grad")) :: r.1, autogradOp :: r.2)
  | (y, g) :: rest =>
    let r := _GetInitGradients rest
    ((y, g) :: r.1, r.2)

/-- The loop at the start of `IR.GetBackwardPass` setting
`gradient_frontier[y] = frontier[y]` for every target (the `defaultdict`
read also materialises `y` in the frontier). -/
def gfInitLoop : List (String × Grad) → List (String × Nat) →
    List (String × Nat) → List (String × Nat) × List (String × Nat)
  | [], gf, f => (gf, f)
  | (y, _) :: rest, gf, f =>
    gfInitLoop rest (ainsert gf y (dlookupD f y 0)) (ainsert f y (dlookupD f y 0))

/-- The initialisation phase of `IR.GetBackwardPass` (before the reverse
walk): move the gradient frontier of every target to its final version and
synthesize the seed gradients. -/
def GetBackwardPassInit (ir : IRState) (ys : List (String × Grad)) :
    IRState × List (String × Grad) × List Operator :=
  let r := gfInitLoop ys ir.gradientFrontier ir.frontier
  let init := _GetInitGradients ys
  ({ ir with gradientFrontier := r.1, frontier := r.2 }, init.1, init.2)

/-! ### Specification-side definitions

The following definitions transcribe the *spec's words* (base-name choice,
autosplit renaming, the claimed liveness disjunction, the claimed device
choice, the claimed frontier count).  They are compared against the
source-derived definitions above in the claim theorems. -/

/-- The autosplit rename `_<output>_autosplit_<cnt>`. -/
def autosplitName (op : Operator) (idx cnt : Nat) : String :=
  "_" ++ op.output.getD idx "" ++ "_autosplit_" ++ toString cnt

/-- An operator with output `idx` autosplit-renamed. -/
def renameOut (op : Operator) (idx cnt : Nat) : Operator :=
  { op with output := op.output.set idx (autosplitName op idx cnt) }

/-- Spec: dense base name — the first producing-operator output among the
generators, else `<blob>_grad`. -/
def denseBaseSpec : List GenMeta → String → String
  | [], n => n ++ "_grad"
  | GenMeta.dense (some gradOp) idx _ :: _, _ => gradOp.output.getD idx ""
  | _ :: rest, n => denseBaseSpec rest n

/-- Spec: the dense sum operator's inputs — produced contributions
autosplit-renamed with one increasing counter, passthrough contributions by
their literal wrapper name. -/
def denseSumInputsSpec : List GenMeta → Nat → List String
  | [], _ => []
  | GenMeta.dense (some gradOp) idx _ :: rest, cnt =>
    autosplitName gradOp idx cnt :: denseSumInputsSpec rest (cnt + 1)
  | GenMeta.dense Option.none _ g :: rest, cnt =>
    g :: denseSumInputsSpec rest cnt
  | GenMeta.sparse _ _ _ _ _ _ :: rest, cnt => denseSumInputsSpec rest cnt

/-- Spec: the generator list after the in-place autosplit renames of the
dense case. -/
def denseRenamedSpec : List GenMeta → Nat → List GenMeta
  | [], _ => []
  | GenMeta.dense (some gradOp) idx g :: rest, cnt =>
    GenMeta.dense (some (renameOut gradOp idx cnt)) idx g ::
      denseRenamedSpec rest (cnt + 1)
  | GenMeta.dense Option.none idx g :: rest, cnt =>
    GenMeta.dense Option.none idx g :: denseRenamedSpec rest cnt
  | GenMeta.sparse _ _ _ _ _ _ :: rest, cnt => denseRenamedSpec rest cnt

/-- No dense passthrough wrapper equals the chosen base name. -/
def denseNoConflictB (gens : List GenMeta) (base : String) : Bool :=
  gens.all fun g =>
    match g with
    | GenMeta.dense Option.none _ s => s != base
    | _ => true

/-- Spec: indices contributions of the sparse case, with their own
counter. -/
def sparseIndicesInputsSpec : List GenMeta → Nat → List String
  | [], _ => []
  | GenMeta.sparse (some opI) iI _ _ _ _ :: rest, cnt =>
    autosplitName opI iI cnt :: sparseIndicesInputsSpec rest (cnt + 1)
  | GenMeta.sparse Option.none _ _ _ gi _ :: rest, cnt =>
    gi :: sparseIndicesInputsSpec rest cnt
  | GenMeta.dense _ _ _ :: rest, cnt => sparseIndicesInputsSpec rest cnt

/-- Spec: values contributions of the sparse case, with their own
counter. -/
def sparseValuesInputsSpec : List GenMeta → Nat → List String
  | [], _ => []
  | GenMeta.sparse _ _ (some opV) iV _ _ :: rest, cnt =>
    autosplitName opV iV cnt :: sparseValuesInputsSpec rest (cnt + 1)
  | GenMeta.sparse _ _ Option.none _ _ gv :: rest, cnt =>
    gv :: sparseValuesInputsSpec rest cnt
  | GenMeta.dense _ _ _ :: rest, cnt => sparseValuesInputsSpec rest cnt

/-- Spec: the generator list after the in-place renames of the sparse case
(two independent counters). -/
def sparseRenamedSpec : List GenMeta → Nat → Nat → List GenMeta
  | [], _, _ => []
  | GenMeta.sparse (some opI) iI (some opV) iV gi gv :: rest, cntI, cntV =>
    GenMeta.sparse (some (renameOut opI iI cntI)) iI
        (some (renameOut opV iV cntV)) iV gi gv ::
      sparseRenamedSpec rest (cntI + 1) (cntV + 1)
  | GenMeta.sparse (some opI) iI Option.none iV gi gv :: rest, cntI, cntV =>
    GenMeta.sparse (some (renameOut opI iI cntI)) iI Option.none iV gi gv ::
      sparseRenamedSpec rest (cntI + 1) cntV
  | GenMeta.sparse Option.none iI (some opV) iV gi gv :: rest, cntI, cntV =>
    GenMeta.sparse Option.none iI (some (renameOut opV iV cntV)) iV gi gv ::
      sparseRenamedSpec rest cntI (cntV + 1)
  | GenMeta.sparse Option.none iI Option.none iV gi gv :: rest, cntI, cntV =>
    GenMeta.sparse Option.none iI Option.none iV gi gv ::
      sparseRenamedSpec rest cntI cntV
  | GenMeta.dense _ _ _ :: rest, cntI, cntV => sparseRenamedSpec rest cntI cntV

/-- No sparse passthrough field used literally equals the chosen base
name. -/
def sparseNoConflictB (gens : List GenMeta) (base : String) : Bool :=
  gens.all fun g =>
    match g with
    | GenMeta.sparse Option.none _ Option.none _ gi gv =>
      gi != base && gv != base
    | GenMeta.sparse Option.none _ (some _) _ gi _ => gi != base
    | GenMeta.sparse (some _) _ Option.none _ _ gv => gv != base
    | _ => true

/-- A sparse generator with no producing operator on either half. -/
def genIsSparsePassthrough : GenMeta → Bool
  | GenMeta.sparse Option.none _ Option.none _ _ _ => true
  | _ => false

/-- The liveness condition exactly as claim C5 words it: a plain
disjunction of (i) gradient name with matching version, (ii) forward output
at current frontier version, (iii) forward input at current frontier
version, (iv) locally generated. -/
def c5ClaimedValidB (ir : IRState) (gradOpInput : String)
    (gOutput : List Grad) (fwdOpIdx : Nat) (locals : List String) : Bool :=
  match ir.ssa[fwdOpIdx]? with
  | Option.none => false
  | some entry =>
    (match GetIndexFromGradientList gOutput gradOpInput with
     | some oi =>
       match entry.op.output[oi]? with
       | some originalName =>
         match alookup entry.outVersions originalName,
               alookup ir.gradientFrontier originalName with
         | some ov, some gv => ov == gv
         | _, _ => false
       | Option.none => false
     | Option.none => false) ||
    (match alookup entry.outVersions gradOpInput with
     | some ov => dlookupD ir.frontier gradOpInput 0 == ov
     | Option.none => false) ||
    (match alookup entry.inVersions gradOpInput with
     | some iv => dlookupD ir.frontier gradOpInput 0 == iv
     | Option.none => false) ||
    locals.contains gradOpInput

/-- A generator's producing-operator placement as claim C9 reads it (for a
sparse generator, the values producer's placement when present, otherwise
the indices producer's). -/
def genPlacement : GenMeta → Option Nat
  | GenMeta.dense gradOp _ _ => gradOp.bind Operator.device
  | GenMeta.sparse oI _ oV _ _ _ =>
    (oV.bind Operator.device).orElse fun _ => oI.bind Operator.device

/-- The device placement claim C9 asserts for the synthesized operators:
that of the first contributing generator whose producing operator has one
set, else unplaced. -/
def c9ClaimedDevice : List GenMeta → Option Nat
  | [] => Option.none
  | g :: rest =>
    match genPlacement g with
    | some d => some d
    | Option.none => c9ClaimedDevice rest

/-! ### Per-blob projection of the frontier (for claim C8) -/

/-- One reference to a blob during replay: as an operator input or as an
operator output. -/
inductive Touch where
  | inp
  | out
  deriving Repr, DecidableEq

/-- Effect of one touch on a blob's frontier entry: the first touch
materialises the entry at 0 (also when it is a write!); later writes
increment, later reads leave it. -/
def touchStep : Option Nat → Touch → Option Nat
  | Option.none, _ => some 0
  | some v, Touch.inp => some v
  | some v, Touch.out => some (v + 1)

def touchFold (s : Option Nat) (ts : List Touch) : Option Nat :=
  ts.foldl touchStep s

def inTouches (ins : List String) (b : String) : List Touch :=
  ins.filterMap fun s => if s = b then some Touch.inp else Option.none

def outTouches (outs : List String) (b : String) : List Touch :=
  outs.filterMap fun s => if s = b then some Touch.out else Option.none

/-- The touches of one operator for blob `b`: its inputs are processed
before its outputs. -/
def opTouches (op : Operator) (b : String) : List Touch :=
  inTouches op.input b ++ outTouches op.output b

def opsTouches (ops : List Operator) (b : String) : List Touch :=
  (ops.map fun op => opTouches op b).flatten

/-- The number of times `b` appears as an operator output in the
sequence. -/
def outputCount (ops : List Operator) (b : String) : Nat :=
  ((ops.map Operator.output).flatten).count b

/-- 1 when the first reference to the blob is a write (the source then
seeds its frontier entry at 0 instead of 1), else 0. -/
def headOutAdj (ts : List Touch) : Nat :=
  match ts.head? with
  | some Touch.out => 1
  | _ => 0

/-! ### Concrete instances used by witnesses and counterexamples -/

def c1Fops : List Operator :=
  [⟨"F", "", ["x"], ["t1"], Option.none, []⟩,
   ⟨"G", "", ["x"], ["t2"], Option.none, []⟩]

def c1IR : IRState :=
  { replay c1Fops with
    gradientGenerators :=
      [(("x", 0), [GenMeta.dense Option.none 0 "g1",
                   GenMeta.dense Option.none 0 "g2"])] }

def c1SumOps : List Operator :=
  [CreateOperator "Sum" ["g1", "g2"] ["x_grad"] [] Option.none]

def c1GradMap : List (String × Grad) := [("x", Grad.dense "x_grad")]

def c2OpA : Operator := ⟨"FooGradient", "", [], ["xg"], Option.none, []⟩

def c2Gens : List GenMeta :=
  [GenMeta.dense (some c2OpA) 0 "gA", GenMeta.dense Option.none 0 "gB"]

def c3OpI : Operator := ⟨"SparseGrad", "", [], ["w_indices"], Option.none, []⟩

def c3OpV : Operator := ⟨"SparseGrad", "", [], ["w_values"], Option.none, []⟩

def c3Gens : List GenMeta :=
  [GenMeta.sparse (some c3OpI) 0 (some c3OpV) 0 "gi1" "gv1",
   GenMeta.sparse Option.none 0 Option.none 0 "pi" "pv"]

def c4Entry : OpSSA :=
  ⟨⟨"Op", "", ["x"], ["y"], Option.none, []⟩, [("x", 0)], [("y", 0)]⟩

def c4IR : IRState :=
  { ssa := [c4Entry], inputUsages := [(("x", 0), [0])],
    frontier := [("x", 0), ("y", 0)], gradientFrontier := [],
    gradientGenerators := [(("x", 0), [GenMeta.dense Option.none 0 "d"])] }

def c4WIR : IRState :=
  { ssa := [c4Entry], inputUsages := [(("x", 0), [0, 1])],
    frontier := [("x", 0), ("y", 0)], gradientFrontier := [],
    gradientGenerators :=
      [(("x", 0), [GenMeta.dense Option.none 0 "d",
                   GenMeta.sparse Option.none 0 Option.none 0 "si" "sv"])] }

def c5Entry : OpSSA := ⟨⟨"Op", "", [], ["o"], Option.none, []⟩, [], [("o", 0)]⟩

def c5IR : IRState :=
  { ssa := [c5Entry], inputUsages := [], frontier := [("o", 1)],
    gradientFrontier := [], gradientGenerators := [] }

def c5WEntry : OpSSA :=
  ⟨⟨"Op", "", ["a"], ["b"], Option.none, []⟩, [("a", 0)], [("b", 0)]⟩

def c5WIR : IRState :=
  { ssa := [c5WEntry], inputUsages := [], frontier := [("a", 0), ("b", 0)],
    gradientFrontier := [], gradientGenerators := [] }

def c6Native : Operator → List Grad → Except String (GradOpsResult × List Grad) :=
  fun _ _ => Except.error "native boom"

def c6Op : Operator := ⟨"Mul", "", ["a", "b"], ["y"], Option.none, []⟩

def c6RuleOp : Operator :=
  ⟨"MulGradient", "", ["a", "b", "y_grad"], ["a_grad", "b_grad"],
   Option.none, []⟩

def c6Rule : Operator → List Grad → GradOpsResult × List Grad :=
  fun _ _ =>
    (GradOpsResult.single c6RuleOp, [Grad.dense "a_grad", Grad.dense "b_grad"])

def c6Registry :
    List (String × (Operator → List Grad → GradOpsResult × List Grad)) :=
  [("Mul", c6Rule)]

def c7IR : IRState := replay [⟨"Mul", "", ["a", "b"], ["y2"], Option.none, []⟩]

def c7Ys : List (String × Grad) := [("y2", Grad.none), ("a", Grad.dense "ga")]

def c8Op : Operator := ⟨"A", "", [], ["b"], Option.none, []⟩

def c8WOp : Operator := ⟨"B", "", ["b"], ["b"], Option.none, []⟩

def c9OpA : Operator := ⟨"FGrad", "", [], ["xg"], some 1, []⟩

def c9OpB : Operator := ⟨"GGrad", "", [], ["xg2"], some 1, []⟩

def c9IR : IRState :=
  { emptyIR with
    gradientGenerators :=
      [(("x", 0), [GenMeta.dense (some c9OpA) 0 "g1",
                   GenMeta.dense (some c9OpB) 0 "g1"])] }

/-- The `device_option` entries one generator contributes to
`all_device_options` (see `verifyDevices`). -/
def genDevices : GenMeta → List (Option Nat)
  | GenMeta.dense (some op) _ _ => [op.device]
  | GenMeta.dense Option.none _ _ => []
  | GenMeta.sparse oI _ oV _ _ _ =>
    (match oI with | some op => [op.device] | Option.none => []) ++
    (match oV with | some op => [op.device] | Option.none => [])

/-- Every usage list holds ≤-sorted indices bounded by `bound`
(used transiently while one operator's inputs are being recorded). -/
def UsageBnd (us : List ((String × Nat) × List Nat)) (bound : Nat) : Prop :=
  ∀ k, ((alookup us k).getD []).Pairwise (· ≤ ·)
    ∧ ∀ j ∈ (alookup us k).getD [], j ≤ bound

/-- Every usage list holds ≤-sorted operator indices strictly below the
number of replayed operators: the Input Usage Table records consumers in
increasing operator order, so the head of each list is the lowest-index
consumer. -/
def UsageStrict (us : List ((String × Nat) × List Nat)) (n : Nat) : Prop :=
  ∀ k, ((alookup us k).getD []).Pairwise (· ≤ ·)
    ∧ ∀ j ∈ (alookup us k).getD [], j < n

/-! ### Helper lemmas -/

theorem alookup_ainsert [DecidableEq κ] (d : List (κ × α)) (k : κ) (v : α)
    (k' : κ) :
    alookup (ainsert d k v) k' = if k = k' then some v else alookup d k' := by
  induction d with
  | nil => simp [ainsert, alookup]
  | cons p rest ih =>
    obtain ⟨k0, v0⟩ := p
    by_cases h0 : k0 = k
    · subst h0
      rw [ainsert, if_pos rfl]
      by_cases h1 : k0 = k'
      · simp [alookup, if_pos h1]
      · simp [alookup, if_neg h1]
    · rw [ainsert]
      simp only [if_neg h0]
      by_cases h1 : k0 = k'
      · subst h1
        have hkk : ¬ k = k0 := fun h => h0 h.symm
        simp [alookup, if_neg hkk]
      · simp [alookup, if_neg h1, ih]

theorem listAllEq_eq [DecidableEq α] {l : List α} (h : listAllEq l = true) :
    ∀ x ∈ l, ∀ y ∈ l, x = y := by
  cases l with
  | nil => intro x hx; simp at hx
  | cons a l =>
    simp only [listAllEq, List.all_eq_true, decide_eq_true_eq] at h
    intro x hx y hy
    rcases List.mem_cons.mp hx with hx | hx <;>
      rcases List.mem_cons.mp hy with hy | hy
    · rw [hx, hy]
    · rw [hx, h y hy]
    · rw [hy, h x hx]
    · rw [h x hx, h y hy]

theorem verify_true_ge2 {gens : List GenMeta}
    (h : _VerifyGradientGenerators gens = Except.ok true) :
    2 ≤ gens.length := by
  unfold _VerifyGradientGenerators at h
  split_ifs at h with h1 h2 h3 h4
  any_goals simp at h
  omega

theorem verify_true_devices {gens : List GenMeta}
    (h : _VerifyGradientGenerators gens = Except.ok true) :
    listAllEq (verifyDevices gens) = true := by
  unfold _VerifyGradientGenerators at h
  split_ifs at h with h1 h2 h3 h4
  any_goals simp at h
  exact h4

theorem verify_mixed_error {gens : List GenMeta}
    (hd : gens.any genIsDense = true) (hs : gens.any genIsSparse = true) :
    _VerifyGradientGenerators gens =
      Except.error ("Automatic aggregation of a mix of sparse and dense " ++
        "gradients is not supported yet") := by
  unfold _VerifyGradientGenerators
  rw [if_pos ⟨hd, hs⟩]

/-! ### C6 — gradient dispatch resolution order -/

/-- **C6.** Gradient dispatch for an operator record tries the native
per-type rule first; if the native lookup raises, it consults the fallback
registry keyed by the operator's type string; if neither resolves, it fails
with an error naming the operator type and including the underlying native
failure text; on success, a rule result that is a single operator (or
`None`) is normalized to a one-element (respectively empty) operator
list. -/
theorem c6_dispatch_order
    (native : Operator → List Grad → Except String (GradOpsResult × List Grad))
    (registry : List (String × (Operator → List Grad →
      GradOpsResult × List Grad)))
    (op : Operator) (gOutput : List Grad) :
    (∀ r, native op gOutput = Except.ok r →
      GetGradientForOp native registry op gOutput =
        Except.ok (normalizeGradOps r.1, r.2))
    ∧ (∀ e rule, native op gOutput = Except.error e →
        alookup registry op.type = some rule →
        GetGradientForOp native registry op gOutput =
          Except.ok (normalizeGradOps (rule op gOutput).1,
            (rule op gOutput).2))
    ∧ (∀ e, native op gOutput = Except.error e →
        alookup registry op.type = Option.none →
        GetGradientForOp native registry op gOutput =
          Except.error ("No gradient registered for " ++ op.type ++
            ". Exception from creating the gradient op: " ++ e ++ ".")) := by
  refine ⟨?_, ?_, ?_⟩
  · intro r hr
    simp [GetGradientForOp, hr]
  · intro e rule he hrule
    simp [GetGradientForOp, he, hrule]
  · intro e he hnone
    simp [GetGradientForOp, he, hnone]

/-- Witness for C6: a concrete operator whose native rule fails, resolved
through the fallback registry, with the single-operator result normalized
to a one-element list; and the exact error text when no rule exists. -/
theorem c6_dispatch_order_witness :
    c6Native c6Op [Grad.dense "y_grad"] = Except.error "native boom"
    ∧ alookup c6Registry c6Op.type = some c6Rule
    ∧ GetGradientForOp c6Native c6Registry c6Op [Grad.dense "y_grad"] =
        Except.ok ([c6RuleOp], [Grad.dense "a_grad", Grad.dense "b_grad"])
    ∧ GetGradientForOp c6Native [] c6Op [Grad.dense "y_grad"] =
        Except.error ("No gradient registered for Mul. " ++
          "Exception from creating the gradient op: native boom.") := by
  refine ⟨rfl, rfl, ?_, ?_⟩
  · exact (c6_dispatch_order c6Native c6Registry c6Op
      [Grad.dense "y_grad"]).2.1 "native boom" c6Rule rfl rfl
  · exact (c6_dispatch_order c6Native [] c6Op
      [Grad.dense "y_grad"]).2.2 "native boom" rfl rfl

/-! ### C9 — device placement of synthesized accumulation operators -/

theorem verifyDevices_cons (g : GenMeta) (rest : List GenMeta) :
    verifyDevices (g :: rest) = genDevices g ++ verifyDevices rest := by
  cases g with
  | dense gradOp idx grad =>
    cases gradOp <;> simp [verifyDevices, genDevices]
  | sparse oI iI oV iV gi gv =>
    cases oI <;> cases oV <;> simp [verifyDevices, genDevices]

theorem pick_none_genDevices {g : GenMeta}
    (h : genGradOpForDevice g = Option.none) : genDevices g = [] := by
  cases g with
  | dense gradOp idx grad =>
    cases gradOp with
    | none => rfl
    | some op => simp [genGradOpForDevice] at h
  | sparse oI iI oV iV gi gv =>
    cases oI <;> cases oV <;> simp_all [genGradOpForDevice, genDevices,
      Option.orElse]

theorem pick_none_genPlacement {g : GenMeta}
    (h : genGradOpForDevice g = Option.none) :
    genPlacement g = Option.none := by
  cases g with
  | dense gradOp idx grad =>
    cases gradOp with
    | none => rfl
    | some op => simp [genGradOpForDevice] at h
  | sparse oI iI oV iV gi gv =>
    cases oI <;> cases oV <;> simp_all [genGradOpForDevice, genPlacement,
      Option.orElse]

theorem pick_some_device_mem {g : GenMeta} {op₀ : Operator}
    (h : genGradOpForDevice g = some op₀) : op₀.device ∈ genDevices g := by
  cases g with
  | dense gradOp idx grad =>
    cases gradOp with
    | none => simp [genGradOpForDevice] at h
    | some op =>
      simp only [genGradOpForDevice] at h
      cases h
      simp [genDevices]
  | sparse oI iI oV iV gi gv =>
    cases oI <;> cases oV <;>
      simp_all [genGradOpForDevice, genDevices, Option.orElse]

theorem genPlacement_some_of_pick {g : GenMeta} {op₀ : Operator} {d : Nat}
    (h : genGradOpForDevice g = some op₀) (hd : op₀.device = some d) :
    genPlacement g = some d := by
  cases g with
  | dense gradOp idx grad =>
    cases gradOp with
    | none => simp [genGradOpForDevice] at h
    | some op =>
      simp only [genGradOpForDevice] at h
      cases h
      simp [genPlacement, hd]
  | sparse oI iI oV iV gi gv =>
    cases oI <;> cases oV <;>
      simp_all [genGradOpForDevice, genPlacement, Option.orElse]

theorem genPlacement_none_of_all {g : GenMeta}
    (h : ∀ d ∈ genDevices g, d = Option.none) :
    genPlacement g = Option.none := by
  cases g with
  | dense gradOp idx grad =>
    cases gradOp with
    | none => rfl
    | some op =>
      have := h op.device (by simp [genDevices])
      simp [genPlacement, this]
  | sparse oI iI oV iV gi gv =>
    cases oI <;> cases oV <;>
      simp_all [genDevices, genPlacement, Option.orElse]

theorem claimed_none_of_all {gens : List GenMeta}
    (h : ∀ d ∈ verifyDevices gens, d = Option.none) :
    c9ClaimedDevice gens = Option.none := by
  induction gens with
  | nil => rfl
  | cons g rest ih =>
    rw [verifyDevices_cons] at h
    have hg : genPlacement g = Option.none :=
      genPlacement_none_of_all fun d hd =>
        h d (List.mem_append_left _ hd)
    rw [c9ClaimedDevice, hg]
    exact ih fun d hd => h d (List.mem_append_right _ hd)

theorem setSumOps_claimed (gens : List GenMeta) (sumOps : List Operator)
    (hcons : ∀ d1 ∈ verifyDevices gens, ∀ d2 ∈ verifyDevices gens, d1 = d2)
    (hraw : ∀ op ∈ sumOps, op.device = Option.none) :
    ∀ op ∈ _SetSumOpsDeviceOption sumOps gens,
      op.device = c9ClaimedDevice gens := by
  induction gens with
  | nil =>
    intro op hop
    rw [_SetSumOpsDeviceOption] at hop
    rw [c9ClaimedDevice]
    exact hraw op hop
  | cons g rest ih =>
    have hsub : ∀ d1 ∈ verifyDevices rest, ∀ d2 ∈ verifyDevices rest,
        d1 = d2 := by
      intro d1 h1 d2 h2
      refine hcons d1 ?_ d2 ?_ <;> rw [verifyDevices_cons]
      · exact List.mem_append_right _ h1
      · exact List.mem_append_right _ h2
    cases hpick : genGradOpForDevice g with
    | none =>
      rw [_SetSumOpsDeviceOption, hpick]
      rw [c9ClaimedDevice, pick_none_genPlacement hpick]
      exact ih hsub
    | some op₀ =>
      cases hdev : op₀.device with
      | some d =>
        simp only [_SetSumOpsDeviceOption, hpick, hdev]
        rw [c9ClaimedDevice, genPlacement_some_of_pick hpick hdev]
        intro op hop
        obtain ⟨op', _, rfl⟩ := List.mem_map.mp hop
        rfl
      | none =>
        simp only [_SetSumOpsDeviceOption, hpick, hdev]
        have hmem : op₀.device ∈ verifyDevices (g :: rest) := by
          rw [verifyDevices_cons]
          exact List.mem_append_left _ (pick_some_device_mem hpick)
        have hall : ∀ d ∈ verifyDevices (g :: rest), d = Option.none := by
          intro d hd
          rw [hcons d hd op₀.device hmem, hdev]
        rw [claimed_none_of_all hall]
        exact hraw

theorem makeDense_raw {gens : List GenMeta} {base : String}
    {r : List GenMeta} {ops : List Operator} {nm : String}
    (h : _MakeDenseSumOps gens base = Except.ok (r, ops, nm)) :
    ∀ op ∈ ops, op.device = Option.none := by
  unfold _MakeDenseSumOps at h
  cases hl : denseSumLoop gens base 0 with
  | error e => rw [hl] at h; cases h
  | ok p =>
    rw [hl] at h
    obtain ⟨p1, p2⟩ := p
    injection h with h1
    injection h1 with h1 h2
    injection h2 with h2 h3
    intro op hop
    rw [← h2] at hop
    simp at hop
    rw [hop, CreateOperator]

theorem makeSparse_raw {gens : List GenMeta} {base : String}
    {r : List GenMeta} {ops : List Operator} {g : Grad}
    (h : _MakeSparseSumOps gens base = Except.ok (r, ops, g)) :
    ∀ op ∈ ops, op.device = Option.none := by
  unfold _MakeSparseSumOps at h
  cases hl : sparseSumLoop gens base 0 0 with
  | error e => rw [hl] at h; cases h
  | ok p =>
    rw [hl] at h
    obtain ⟨p1, p2, p3⟩ := p
    injection h with h1
    injection h1 with h1 h2
    injection h2 with h2 h3
    intro op hop
    rw [← h2] at hop
    simp at hop
    rcases hop with hop | hop <;> rw [hop, CreateOperator]

/-- **C9.** Every accumulation operator synthesized for a versioned blob is
stamped with the device placement of the first contributing generator's
producing operator that has a placement set, if any such generator exists;
if no generator's producing operator has a placement, the synthesized
operators are left unplaced.  (The generator-verification step, which
always precedes synthesis in `DoGradientAccumulation`, guarantees all
producing operators carry the same `device_option`, making the source's
pick — the first producing operator regardless of placement — agree with
the claimed first-with-placement choice `c9ClaimedDevice`.) -/
theorem c9_device_stamping (ir : IRState) (n : String) (v : Nat)
    (sumOps : List Operator) (g : Grad)
    (hver : _VerifyGradientGenerators (gensOf ir n v) = Except.ok true)
    (hmk : _MakeSumOps ir n v = Except.ok (sumOps, g)) :
    ∀ op ∈ sumOps, op.device = c9ClaimedDevice (gensOf ir n v) := by
  have hcons := listAllEq_eq (verify_true_devices hver)
  simp only [_MakeSumOps] at hmk
  split_ifs at hmk with hmix hempty hdense
  -- (the two assertion-failure branches, where `hmk` equates an error with
  -- an ok value, are discharged by `split_ifs` itself)
  · cases hd : _MakeDenseSumOps (gensOf ir n v)
        (_GetSumOpOutputName (gensOf ir n v) n) with
    | error e => rw [hd] at hmk; cases hmk
    | ok p =>
      obtain ⟨p1, p2, p3⟩ := p
      rw [hd] at hmk
      injection hmk with h1
      injection h1 with h1 h2
      rw [← h1]
      exact setSumOps_claimed _ _ hcons (makeDense_raw hd)
  · cases hd : _MakeSparseSumOps (gensOf ir n v)
        (_GetSumOpOutputName (gensOf ir n v) n) with
    | error e => rw [hd] at hmk; cases hmk
    | ok p =>
      obtain ⟨p1, p2, p3⟩ := p
      rw [hd] at hmk
      injection hmk with h1
      injection h1 with h1 h2
      rw [← h1]
      exact setSumOps_claimed _ _ hcons (makeSparse_raw hd)

/-- Witness for C9: two produced dense contributions whose gradient
operators both sit on device 1; the synthesized `Sum` operator is stamped
with device 1 (= the claimed first placement). -/
theorem c9_device_stamping_witness :
    _VerifyGradientGenerators (gensOf c9IR "x" 0) = Except.ok true
    ∧ _MakeSumOps c9IR "x" 0 =
        Except.ok ([CreateOperator "Sum"
          ["_xg_autosplit_0", "_xg2_autosplit_1"] ["xg"] [] (some 1)],
          Grad.dense "xg")
    ∧ ∀ op ∈ [CreateOperator "Sum" ["_xg_autosplit_0", "_xg2_autosplit_1"]
          ["xg"] [] (some 1)],
        op.device = c9ClaimedDevice (gensOf c9IR "x" 0) := by
  refine ⟨by decide, by decide, ?_⟩
  exact c9_device_stamping c9IR "x" 0
    [CreateOperator "Sum" ["_xg_autosplit_0", "_xg2_autosplit_1"] ["xg"] []
      (some 1)]
    (Grad.dense "xg") (by decide) (by decide)

/-! ### C2 — dense accumulation -/

theorem dense_base_spec {gens : List GenMeta} (hdense : gens.all genIsDense = true)
    (n : String) : _GetSumOpOutputName gens n = denseBaseSpec gens n := by
  induction gens with
  | nil => rfl
  | cons g rest ih =>
    simp only [List.all_cons, Bool.and_eq_true] at hdense
    cases g with
    | dense gradOp idx grad =>
      cases gradOp with
      | some op => rfl
      | none => simp only [_GetSumOpOutputName, denseBaseSpec]; exact ih hdense.2
    | sparse oI iI oV iV gi gv => simp [genIsDense] at hdense

theorem dense_inputs_len {gens : List GenMeta}
    (hdense : gens.all genIsDense = true) :
    ∀ cnt, (denseSumInputsSpec gens cnt).length = gens.length := by
  induction gens with
  | nil => intro cnt; rfl
  | cons g rest ih =>
    intro cnt
    simp only [List.all_cons, Bool.and_eq_true] at hdense
    cases g with
    | dense gradOp idx grad =>
      cases gradOp with
      | some op => simp [denseSumInputsSpec, ih hdense.2]
      | none => simp [denseSumInputsSpec, ih hdense.2]
    | sparse oI iI oV iV gi gv => simp [genIsDense] at hdense

theorem dense_loop_spec {gens : List GenMeta} {base : String}
    (hdense : gens.all genIsDense = true)
    (hnoc : denseNoConflictB gens base = true) :
    ∀ cnt, denseSumLoop gens base cnt =
      Except.ok (denseRenamedSpec gens cnt, denseSumInputsSpec gens cnt) := by
  induction gens with
  | nil => intro cnt; rfl
  | cons g rest ih =>
    intro cnt
    simp only [List.all_cons, Bool.and_eq_true] at hdense
    simp only [denseNoConflictB, List.all_cons, Bool.and_eq_true] at hnoc
    cases g with
    | dense gradOp idx grad =>
      cases gradOp with
      | some op =>
        have := ih hdense.2 hnoc.2 (cnt + 1)
        simp [denseSumLoop, _DisambiguateGradOpOutput, this,
          denseRenamedSpec, denseSumInputsSpec, renameOut, autosplitName]
      | none =>
        have hgb : ¬ base = grad := by
          intro hbg
          have := hnoc.1
          simp [hbg] at this
        have := ih hdense.2 hnoc.2 cnt
        simp [denseSumLoop, _CheckSumOpsConflict, hgb, this,
          denseRenamedSpec, denseSumInputsSpec]
    | sparse oI iI oV iV gi gv => simp [genIsDense] at hdense

theorem dense_loop_conflict {gens : List GenMeta} {base : String}
    (hdense : gens.all genIsDense = true)
    (hnoc : denseNoConflictB gens base = false) :
    ∀ cnt, ∃ e, denseSumLoop gens base cnt = Except.error e := by
  induction gens with
  | nil => intro cnt; simp [denseNoConflictB] at hnoc
  | cons g rest ih =>
    intro cnt
    simp only [List.all_cons, Bool.and_eq_true] at hdense
    cases g with
    | dense gradOp idx grad =>
      cases gradOp with
      | some op =>
        have hrest : denseNoConflictB rest base = false := by
          simpa [denseNoConflictB] using hnoc
        obtain ⟨e, he⟩ := ih hdense.2 hrest (cnt + 1)
        exact ⟨e, by simp [denseSumLoop, _DisambiguateGradOpOutput, he]⟩
      | none =>
        by_cases hgb : grad = base
        · cases hl : denseSumLoop (GenMeta.dense Option.none idx grad :: rest)
              base cnt with
          | error e => exact ⟨e, rfl⟩
          | ok p =>
            exfalso
            simp [denseSumLoop, _CheckSumOpsConflict, hgb] at hl
        · have hrest : denseNoConflictB rest base = false := by
            simpa [denseNoConflictB, hgb] using hnoc
          obtain ⟨e, he⟩ := ih hdense.2 hrest cnt
          have hbg : ¬ base = grad := fun h => hgb h.symm
          exact ⟨e, by simp [denseSumLoop, _CheckSumOpsConflict, hbg, he]⟩
    | sparse oI iI oV iV gi gv => simp [genIsDense] at hdense

/-- **C2.** When dense accumulation fires for a versioned blob with N ≥ 2
dense generators, exactly one `Sum` operator is emitted; its output is the
base name chosen preferentially as the first producing-operator output
among the generators (falling back to `<blob>_grad` when no generator has a
producing operator), and its inputs are exactly the N contributions — each
producing operator's specific output renamed in place (the renamed
generators are the first returned component) with an `_autosplit_<counter>`
suffix using an increasing counter, and each passthrough generator
contributing its literal wrapper name, which fails fatally if it equals the
chosen base name. -/
theorem c2_dense_accumulation (gens : List GenMeta) (name base : String)
    (hdense : gens.all genIsDense = true) (hlen : 2 ≤ gens.length)
    (hbase : base = _GetSumOpOutputName gens name) :
    _GetSumOpOutputName gens name = denseBaseSpec gens name
    ∧ (denseNoConflictB gens base = true →
        _MakeDenseSumOps gens base =
          Except.ok (denseRenamedSpec gens 0,
            [CreateOperator "Sum" (denseSumInputsSpec gens 0) [base] []
              Option.none], base))
    ∧ (denseNoConflictB gens base = false →
        ∃ e, _MakeDenseSumOps gens base = Except.error e)
    ∧ (denseSumInputsSpec gens 0).length = gens.length := by
  refine ⟨dense_base_spec hdense name, ?_, ?_, dense_inputs_len hdense 0⟩
  · intro hnoc
    simp [_MakeDenseSumOps, dense_loop_spec hdense hnoc 0]
  · intro hnoc
    obtain ⟨e, he⟩ := dense_loop_conflict hdense hnoc 0
    exact ⟨e, by simp [_MakeDenseSumOps, he]⟩

/-- Witness for C2: one produced contribution (operator output `xg`, which
becomes the base name and is autosplit-renamed) and one passthrough
contribution `gB`. -/
theorem c2_dense_accumulation_witness :
    c2Gens.all genIsDense = true ∧ 2 ≤ c2Gens.length
    ∧ "xg" = _GetSumOpOutputName c2Gens "x"
    ∧ (_GetSumOpOutputName c2Gens "x" = denseBaseSpec c2Gens "x"
       ∧ (denseNoConflictB c2Gens "xg" = true →
           _MakeDenseSumOps c2Gens "xg" =
             Except.ok (denseRenamedSpec c2Gens 0,
               [CreateOperator "Sum" (denseSumInputsSpec c2Gens 0) ["xg"] []
                 Option.none], "xg"))
       ∧ (denseNoConflictB c2Gens "xg" = false →
           ∃ e, _MakeDenseSumOps c2Gens "xg" = Except.error e)
       ∧ (denseSumInputsSpec c2Gens 0).length = c2Gens.length) :=
  ⟨by decide, by decide, by decide,
   c2_dense_accumulation c2Gens "x" "xg" (by decide) (by decide) (by decide)⟩

/-! ### C3 — sparse accumulation -/

theorem sparse_indices_len {gens : List GenMeta}
    (hsparse : gens.all genIsSparse = true) :
    ∀ cnt, (sparseIndicesInputsSpec gens cnt).length = gens.length := by
  induction gens with
  | nil => intro cnt; rfl
  | cons g rest ih =>
    intro cnt
    simp only [List.all_cons, Bool.and_eq_true] at hsparse
    cases g with
    | dense gradOp idx grad => simp [genIsSparse] at hsparse
    | sparse oI iI oV iV gi gv =>
      cases oI <;> simp [sparseIndicesInputsSpec, ih hsparse.2]

theorem sparse_values_len {gens : List GenMeta}
    (hsparse : gens.all genIsSparse = true) :
    ∀ cnt, (sparseValuesInputsSpec gens cnt).length = gens.length := by
  induction gens with
  | nil => intro cnt; rfl
  | cons g rest ih =>
    intro cnt
    simp only [List.all_cons, Bool.and_eq_true] at hsparse
    cases g with
    | dense gradOp idx grad => simp [genIsSparse] at hsparse
    | sparse oI iI oV iV gi gv =>
      cases oV <;> simp [sparseValuesInputsSpec, ih hsparse.2]

theorem sparse_loop_spec {gens : List GenMeta} {base : String}
    (hsparse : gens.all genIsSparse = true)
    (hnoc : sparseNoConflictB gens base = true) :
    ∀ cntI cntV, sparseSumLoop gens base cntI cntV =
      Except.ok (sparseRenamedSpec gens cntI cntV,
        sparseIndicesInputsSpec gens cntI,
        sparseValuesInputsSpec gens cntV) := by
  induction gens with
  | nil => intro cntI cntV; rfl
  | cons g rest ih =>
    intro cntI cntV
    simp only [List.all_cons, Bool.and_eq_true] at hsparse
    simp only [sparseNoConflictB, List.all_cons, Bool.and_eq_true] at hnoc
    cases g with
    | dense gradOp idx grad => simp [genIsSparse] at hsparse
    | sparse oI iI oV iV gi gv =>
      cases oI with
      | some opI =>
        cases oV with
        | some opV =>
          have := ih hsparse.2 hnoc.2 (cntI + 1) (cntV + 1)
          simp [sparseSumLoop, _DisambiguateGradOpOutput, this,
            sparseRenamedSpec, sparseIndicesInputsSpec,
            sparseValuesInputsSpec, renameOut, autosplitName]
        | none =>
          have hbv : ¬ base = gv := by
            have h1 := hnoc.1
            simp only [bne_iff_ne, ne_eq] at h1
            exact fun h => h1 h.symm
          have := ih hsparse.2 hnoc.2 (cntI + 1) cntV
          simp [sparseSumLoop, _DisambiguateGradOpOutput,
            _CheckSumOpsConflict, hbv, this, sparseRenamedSpec,
            sparseIndicesInputsSpec, sparseValuesInputsSpec, renameOut,
            autosplitName]
      | none =>
        cases oV with
        | some opV =>
          have hbi : ¬ base = gi := by
            have h1 := hnoc.1
            simp only [bne_iff_ne, ne_eq] at h1
            exact fun h => h1 h.symm
          have := ih hsparse.2 hnoc.2 cntI (cntV + 1)
          simp [sparseSumLoop, _DisambiguateGradOpOutput,
            _CheckSumOpsConflict, hbi, this, sparseRenamedSpec,
            sparseIndicesInputsSpec, sparseValuesInputsSpec, renameOut,
            autosplitName]
        | none =>
          have h1 := hnoc.1
          simp only [Bool.and_eq_true, bne_iff_ne, ne_eq] at h1
          have hbi : ¬ base = gi := fun h => h1.1 h.symm
          have hbv : ¬ base = gv := fun h => h1.2 h.symm
          have := ih hsparse.2 hnoc.2 cntI cntV
          simp [sparseSumLoop, _CheckSumOpsConflict, hbi, hbv, this,
            sparseRenamedSpec, sparseIndicesInputsSpec,
            sparseValuesInputsSpec]

theorem sparse_loop_conflict {gens : List GenMeta} {base : String}
    (hsparse : gens.all genIsSparse = true)
    (hnoc : sparseNoConflictB gens base = false) :
    ∀ cntI cntV, ∃ e, sparseSumLoop gens base cntI cntV = Except.error e := by
  induction gens with
  | nil => intro cntI cntV; simp [sparseNoConflictB] at hnoc
  | cons g rest ih =>
    intro cntI cntV
    simp only [List.all_cons, Bool.and_eq_true] at hsparse
    cases g with
    | dense gradOp idx grad => simp [genIsSparse] at hsparse
    | sparse oI iI oV iV gi gv =>
      cases oI with
      | some opI =>
        cases oV with
        | some opV =>
          have hrest : sparseNoConflictB rest base = false := by
            simpa [sparseNoConflictB] using hnoc
          obtain ⟨e, he⟩ := ih hsparse.2 hrest (cntI + 1) (cntV + 1)
          exact ⟨e, by simp [sparseSumLoop, _DisambiguateGradOpOutput, he]⟩
        | none =>
          by_cases hgb : gv = base
          · cases hl : sparseSumLoop
                (GenMeta.sparse (some opI) iI Option.none iV gi gv :: rest)
                base cntI cntV with
            | error e => exact ⟨e, rfl⟩
            | ok p =>
              exfalso
              simp [sparseSumLoop, _DisambiguateGradOpOutput,
                _CheckSumOpsConflict, hgb] at hl
          · have hrest : sparseNoConflictB rest base = false := by
              simpa [sparseNoConflictB, hgb] using hnoc
            obtain ⟨e, he⟩ := ih hsparse.2 hrest (cntI + 1) cntV
            have hbg : ¬ base = gv := fun h => hgb h.symm
            exact ⟨e, by simp [sparseSumLoop, _DisambiguateGradOpOutput,
              _CheckSumOpsConflict, hbg, he]⟩
      | none =>
        cases oV with
        | some opV =>
          by_cases hgb : gi = base
          · cases hl : sparseSumLoop
                (GenMeta.sparse Option.none iI (some opV) iV gi gv :: rest)
                base cntI cntV with
            | error e => exact ⟨e, rfl⟩
            | ok p =>
              exfalso
              simp [sparseSumLoop, _CheckSumOpsConflict, hgb] at hl
          · have hrest : sparseNoConflictB rest base = false := by
              simpa [sparseNoConflictB, hgb] using hnoc
            obtain ⟨e, he⟩ := ih hsparse.2 hrest cntI (cntV + 1)
            have hbg : ¬ base = gi := fun h => hgb h.symm
            exact ⟨e, by simp [sparseSumLoop, _DisambiguateGradOpOutput,
              _CheckSumOpsConflict, hbg, he]⟩
        | none =>
          by_cases hgbi : gi = base
          · cases hl : sparseSumLoop
                (GenMeta.sparse Option.none iI Option.none iV gi gv :: rest)
                base cntI cntV with
            | error e => exact ⟨e, rfl⟩
            | ok p =>
              exfalso
              simp [sparseSumLoop, _CheckSumOpsConflict, hgbi] at hl
          · by_cases hgbv : gv = base
            · cases hl : sparseSumLoop
                  (GenMeta.sparse Option.none iI Option.none iV gi gv :: rest)
                  base cntI cntV with
              | error e => exact ⟨e, rfl⟩
              | ok p =>
                exfalso
                have hbgi : ¬ base = gi := fun h => hgbi h.symm
                simp [sparseSumLoop, _CheckSumOpsConflict, hbgi, hgbv] at hl
            · have hrest : sparseNoConflictB rest base = false := by
                simpa [sparseNoConflictB, hgbi, hgbv] using hnoc
              obtain ⟨e, he⟩ := ih hsparse.2 hrest cntI cntV
              have hbgi : ¬ base = gi := fun h => hgbi h.symm
              have hbgv : ¬ base = gv := fun h => hgbv h.symm
              exact ⟨e, by simp [sparseSumLoop, _CheckSumOpsConflict, hbgi,
                hbgv, he]⟩

/-- **C3.** When sparse accumulation fires for a versioned blob with N ≥ 2
sparse generators, exactly two concatenation operators are emitted — one
over all indices contributions and one over all values contributions, both
along axis 0, each list in the generators' relative order and resolved with
its own independent autosplit counter — with no deduplication of repeated
indices (the concat inputs are exactly the N literal contributions, one per
generator), and the returned gradient wrapper is a sparse pair of the two
concatenation outputs. -/
theorem c3_sparse_accumulation (gens : List GenMeta) (name base : String)
    (hsparse : gens.all genIsSparse = true) (hlen : 2 ≤ gens.length)
    (hbase : base = _GetSumOpOutputName gens name) :
    (sparseNoConflictB gens base = true →
      _MakeSparseSumOps gens base =
        Except.ok (sparseRenamedSpec gens 0 0,
          [CreateOperator "Concat" (sparseIndicesInputsSpec gens 0)
            [base ++ "_indices_concat", base ++ "_indices_concat_split"]
            [("axis", 0)] Option.none,
           CreateOperator "Concat" (sparseValuesInputsSpec gens 0)
            [base ++ "_values_concat", base ++ "_values_concat_split"]
            [("axis", 0)] Option.none],
          Grad.sparse (base ++ "_indices_concat")
            (base ++ "_values_concat")))
    ∧ (sparseNoConflictB gens base = false →
        ∃ e, _MakeSparseSumOps gens base = Except.error e)
    ∧ (sparseIndicesInputsSpec gens 0).length = gens.length
    ∧ (sparseValuesInputsSpec gens 0).length = gens.length := by
  refine ⟨?_, ?_, sparse_indices_len hsparse 0, sparse_values_len hsparse 0⟩
  · intro hnoc
    simp [_MakeSparseSumOps, sparse_loop_spec hsparse hnoc 0 0]
  · intro hnoc
    obtain ⟨e, he⟩ := sparse_loop_conflict hsparse hnoc 0 0
    exact ⟨e, by simp [_MakeSparseSumOps, he]⟩

/-- Witness for C3: one fully-produced sparse contribution (outputs
`w_indices` / `w_values`, base name `w`) and one passthrough sparse
contribution `(pi, pv)`. -/
theorem c3_sparse_accumulation_witness :
    c3Gens.all genIsSparse = true ∧ 2 ≤ c3Gens.length
    ∧ "w" = _GetSumOpOutputName c3Gens "x"
    ∧ ((sparseNoConflictB c3Gens "w" = true →
         _MakeSparseSumOps c3Gens "w" =
           Except.ok (sparseRenamedSpec c3Gens 0 0,
             [CreateOperator "Concat" (sparseIndicesInputsSpec c3Gens 0)
               ["w" ++ "_indices_concat", "w" ++ "_indices_concat_split"]
               [("axis", 0)] Option.none,
              CreateOperator "Concat" (sparseValuesInputsSpec c3Gens 0)
               ["w" ++ "_values_concat", "w" ++ "_values_concat_split"]
               [("axis", 0)] Option.none],
             Grad.sparse ("w" ++ "_indices_concat")
               ("w" ++ "_values_concat")))
       ∧ (sparseNoConflictB c3Gens "w" = false →
           ∃ e, _MakeSparseSumOps c3Gens "w" = Except.error e)
       ∧ (sparseIndicesInputsSpec c3Gens 0).length = c3Gens.length
       ∧ (sparseValuesInputsSpec c3Gens 0).length = c3Gens.length) :=
  ⟨by decide, by decide, by decide,
   c3_sparse_accumulation c3Gens "x" "w" (by decide) (by decide) (by decide)⟩

/-! ### C10 — suffix stripping of sparse producer outputs -/

theorem string_data_append (s t : String) : (s ++ t).data = s.data ++ t.data := by
  obtain ⟨ls⟩ := s
  obtain ⟨lt⟩ := t
  rfl

theorem removeSuffix_append (s t : String) (ht : t.data.isEmpty = false) :
    removeSuffix (s ++ t) t = s := by
  unfold removeSuffix
  have hsuf : t.data.isSuffixOf ((s ++ t).data) = true := by
    rw [string_data_append]
    exact List.isSuffixOf_iff_suffix.mpr (List.suffix_append s.data t.data)
  rw [if_pos hsuf, ht, string_data_append]
  simp only [Bool.false_eq_true, if_false, List.length_append,
    Nat.add_sub_cancel, List.take_left]

theorem getSumOpOutputName_append_passthrough {pre : List GenMeta}
    (hpre : pre.all genIsSparsePassthrough = true) (l : List GenMeta)
    (name : String) :
    _GetSumOpOutputName (pre ++ l) name = _GetSumOpOutputName l name := by
  induction pre with
  | nil => rfl
  | cons p ps ih =>
    simp only [List.all_cons, Bool.and_eq_true] at hpre
    cases p with
    | dense a b c => exact absurd hpre.1 (by simp [genIsSparsePassthrough])
    | sparse oI iI oV iV gi gv =>
      cases oI with
      | some op => exact absurd hpre.1 (by simp [genIsSparsePassthrough])
      | none =>
        cases oV with
        | some op => exact absurd hpre.1 (by simp [genIsSparsePassthrough])
        | none =>
          simp only [List.cons_append, _GetSumOpOutputName]
          exact ih hpre.2

/-- **C10.** When the accumulation base name is chosen from a sparse
generator's producing-operator output, a trailing `_indices` suffix (for an
indices producer) or `_values` suffix (for a values producer) is stripped
from that output name before it is used as the base name, so the emitted
concatenation outputs are `<stripped-base>_indices_concat` and
`<stripped-base>_values_concat` rather than containing a doubled suffix.
(`pre` is any prefix of passthrough generators, which the base-name search
skips.) -/
theorem c10_suffix_strip (pre rest rest' : List GenMeta) (name s t : String)
    (opI opV : Operator) (idxI idxV idxI' idxV' : Nat) (oV : Option Operator)
    (gi gv gi' gv' : String)
    (hpre : pre.all genIsSparsePassthrough = true)
    (hI : opI.output.getD idxI "" = s ++ "_indices")
    (hV : opV.output.getD idxV "" = t ++ "_values") :
    _GetSumOpOutputName
        (pre ++ GenMeta.sparse (some opI) idxI oV idxV' gi gv :: rest)
        name = s
    ∧ _GetSumOpOutputName
        (pre ++ GenMeta.sparse Option.none idxI' (some opV) idxV gi' gv' ::
          rest') name = t
    ∧ (∀ gens2 base r ops g,
        _MakeSparseSumOps gens2 base = Except.ok (r, ops, g) →
        g = Grad.sparse (base ++ "_indices_concat")
              (base ++ "_values_concat")
        ∧ ops.map Operator.output =
            [[base ++ "_indices_concat", base ++ "_indices_concat_split"],
             [base ++ "_values_concat", base ++ "_values_concat_split"]]) := by
  refine ⟨?_, ?_, ?_⟩
  · rw [getSumOpOutputName_append_passthrough hpre]
    show removeSuffix (opI.output.getD idxI "") "_indices" = s
    rw [hI]
    exact removeSuffix_append s "_indices" (by decide)
  · rw [getSumOpOutputName_append_passthrough hpre]
    show removeSuffix (opV.output.getD idxV "") "_values" = t
    rw [hV]
    exact removeSuffix_append t "_values" (by decide)
  · intro gens2 base r ops g h
    unfold _MakeSparseSumOps at h
    cases hl : sparseSumLoop gens2 base 0 0 with
    | error e => rw [hl] at h; cases h
    | ok p =>
      obtain ⟨p1, p2, p3⟩ := p
      rw [hl] at h
      injection h with h1
      injection h1 with h1 h2
      injection h2 with h2 h3
      constructor
      · exact h3.symm
      · rw [← h2]
        rfl

/-- Witness for C10: the producing operator outputs `w_indices` and
`w_values` yield the stripped base name `w` after a passthrough prefix, and
a successful sparse synthesis names its concat outputs from the base. -/
theorem c10_suffix_strip_witness :
    [GenMeta.sparse Option.none 0 Option.none 0 "pi" "pv"].all
        genIsSparsePassthrough = true
    ∧ c3OpI.output.getD 0 "" = "w" ++ "_indices"
    ∧ c3OpV.output.getD 0 "" = "w" ++ "_values"
    ∧ (_GetSumOpOutputName
          ([GenMeta.sparse Option.none 0 Option.none 0 "pi" "pv"] ++
            GenMeta.sparse (some c3OpI) 0 (some c3OpV) 0 "gi1" "gv1" :: [])
          "x" = "w"
       ∧ _GetSumOpOutputName
          ([GenMeta.sparse Option.none 0 Option.none 0 "pi" "pv"] ++
            GenMeta.sparse Option.none 0 (some c3OpV) 0 "gi2" "gv2" :: [])
          "x" = "w"
       ∧ (∀ gens2 base r ops g,
            _MakeSparseSumOps gens2 base = Except.ok (r, ops, g) →
            g = Grad.sparse (base ++ "_indices_concat")
                  (base ++ "_values_concat")
            ∧ ops.map Operator.output =
                [[base ++ "_indices_concat",
                  base ++ "_indices_concat_split"],
                 [base ++ "_values_concat",
                  base ++ "_values_concat_split"]])) :=
  ⟨by decide, by decide, by decide,
   c10_suffix_strip [GenMeta.sparse Option.none 0 Option.none 0 "pi" "pv"]
     [] [] "x" "w" "w" c3OpI c3OpV 0 0 0 0 (some c3OpV) "gi1" "gv1" "gi2"
     "gv2" (by decide) (by decide) (by decide)⟩

/-! ### C5 — liveness check of gradient-operator inputs -/

/-- **C5 counterexample.** The claim's plain disjunction of conditions
(i)–(iv) holds at this input — the referenced blob `o` is locally generated
(iv) — yet the source raises: the output-name check (case ii) is tried
first and its version mismatch is fatal, regardless of (iv).  So "succeeds
iff one of (i)-(iv)" is false as stated. -/
theorem c5_counterexample :
    c5ClaimedValidB c5IR "o" [Grad.dense "gy"] 0 ["o"] = true
    ∧ CheckGradientOperatorInput c5IR "o" [Grad.dense "gy"] 0 ["o"] =
        Except.error ("Gradient operator needs output \"o\" at version 0" ++
          ", but currently we have version 1.") :=
  ⟨by decide, by decide⟩

/-- **C5 (amended).** For a blob name referenced by an emitted gradient
operator, the check succeeds iff the *first applicable* of the four cases
passes: (i) if the name is a gradient name from the output wrappers, the
matching forward output's recorded version must equal the Gradient Frontier
entry of the original blob (both must exist); otherwise (ii) if it is a
forward output name, the current frontier version must equal the recorded
output version; otherwise (iii) if it is a forward input name, the current
frontier version must equal the recorded input version; otherwise (iv) it
must be in the locally-generated list, which the source builds per forward
operator (only gradient operators of the *current* forward operator count).
An earlier case matching with the wrong version is fatal even when a later
case would hold. -/
theorem c5_liveness_check_amended (ir : IRState) (gradOpInput : String)
    (gOutput : List Grad) (fwdOpIdx : Nat) (locals : List String)
    (entry : OpSSA) (hssa : ir.ssa[fwdOpIdx]? = some entry) :
    CheckGradientOperatorInput ir gradOpInput gOutput fwdOpIdx locals =
      Except.ok () ↔
    (match GetIndexFromGradientList gOutput gradOpInput with
     | some oi =>
       ∃ originalName ov, entry.op.output[oi]? = some originalName
         ∧ alookup entry.outVersions originalName = some ov
         ∧ alookup ir.gradientFrontier originalName = some ov
     | Option.none =>
       match alookup entry.outVersions gradOpInput with
       | some ov => dlookupD ir.frontier gradOpInput 0 = ov
       | Option.none =>
         match alookup entry.inVersions gradOpInput with
         | some iv => dlookupD ir.frontier gradOpInput 0 = iv
         | Option.none => gradOpInput ∈ locals) := by
  unfold CheckGradientOperatorInput
  rw [hssa]
  cases hgi : GetIndexFromGradientList gOutput gradOpInput with
  | some oi =>
    cases hon : entry.op.output[oi]? with
    | none => simp [hon]
    | some originalName =>
      cases hov : alookup entry.outVersions originalName with
      | none =>
        cases hgf : alookup ir.gradientFrontier originalName <;>
          simp [hon, hov]
      | some ov =>
        cases hgf : alookup ir.gradientFrontier originalName with
        | none => simp [hon, hov, hgf]
        | some gv =>
          by_cases hvg : ov = gv
          · subst hvg
            simp [hon, hov, hgf]
          · simp only [hon, hov, hgf, if_pos (show ov ≠ gv from hvg)]
            constructor
            · intro h
              exact absurd h (by simp)
            · rintro ⟨nm, ov', hnm, h1, h2⟩
              exfalso
              apply hvg
              injection hnm with hnm'
              subst hnm'
              rw [hov] at h1
              rw [hgf] at h2
              rw [Option.some.injEq] at h1 h2
              exact h1.trans h2.symm
  | none =>
    cases hout : alookup entry.outVersions gradOpInput with
    | some ov =>
      by_cases hfr : dlookupD ir.frontier gradOpInput 0 = ov <;>
        simp [hout, hfr]
    | none =>
      cases hin : alookup entry.inVersions gradOpInput with
      | some iv =>
        by_cases hfr : dlookupD ir.frontier gradOpInput 0 = iv <;>
          simp [hout, hin, hfr]
      | none =>
        by_cases hmem : gradOpInput ∈ locals <;> simp [hout, hin, hmem]

/-- Witness for the amended C5: a reference that is neither a gradient name
nor a forward input/output name succeeds exactly when it is locally
generated. -/
theorem c5_liveness_check_amended_witness :
    CheckGradientOperatorInput c5WIR "z" [] 0 ["z"] = Except.ok () :=
  (c5_liveness_check_amended c5WIR "z" [] 0 ["z"] c5WEntry rfl).mpr
    (by show "z" ∈ ["z"]; decide)

/-! ### C4 — heterogeneous dense/sparse generators -/

/-- **C4 counterexample.** Recording a sparse generator into a ledger entry
that already holds a dense generator does *not* fail at record time:
`BuildGradientGenerators` appends it silently and the mixed list persists.
(The fatal mixed-sparse/dense error is raised later, at
accumulation-verification time — see the amended theorem.) -/
theorem c4_counterexample :
    (BuildGradientGenerators c4IR 0 [] [Grad.dense "gy"]
        [Grad.sparse "si" "sv"]).map (fun ir2 => gensOf ir2 "x" 0) =
      Except.ok [GenMeta.dense Option.none 0 "d",
                 GenMeta.sparse Option.none 0 Option.none 0 "si" "sv"]
    ∧ ([GenMeta.dense Option.none 0 "d",
        GenMeta.sparse Option.none 0 Option.none 0 "si" "sv"].any genIsDense
          = true
       ∧ [GenMeta.dense Option.none 0 "d",
          GenMeta.sparse Option.none 0 Option.none 0 "si" "sv"].any
            genIsSparse = true) :=
  ⟨by decide, by decide, by decide⟩

theorem accumLoop_error_of_mixed (ir : IRState) (i : Nat) (entry : OpSSA)
    {n : String} {v : Nat}
    (hv : alookup entry.inVersions n = some v)
    (hlen : 1 < (usagesOf ir n v).length)
    (hhead : (usagesOf ir n v).head? = some i)
    (hmixD : (gensOf ir n v).any genIsDense = true)
    (hmixS : (gensOf ir n v).any genIsSparse = true) :
    ∀ names, n ∈ names → ∃ e, accumLoop ir i entry names = Except.error e := by
  intro names
  induction names with
  | nil => intro h; simp at h
  | cons m rest ih =>
    intro hmem
    cases hres : accumLoop ir i entry (m :: rest) with
    | error e => exact ⟨e, rfl⟩
    | ok p =>
      exfalso
      by_cases hnm : m = n
      · subst hnm
        simp only [accumLoop, hv] at hres
        rw [if_neg (by push_neg; exact ⟨by omega, hhead⟩)] at hres
        rw [verify_mixed_error hmixD hmixS] at hres
        simp at hres
      · have hnrest : n ∈ rest := by
          rcases List.mem_cons.mp hmem with h | h
          · exact absurd h.symm hnm
          · exact h
        obtain ⟨e, he⟩ := ih hnrest
        simp only [accumLoop] at hres
        split at hres
        · simp at hres
        · split at hres
          · rw [he] at hres
            simp at hres
          · split at hres
            · simp at hres
            · rw [he] at hres
              simp at hres
            · split at hres
              · simp at hres
              · split at hres
                · simp at hres
                · rename_i ops gradMap heq
                  rw [he] at heq
                  simp at heq

/-- **C4 (amended).** Recording a generator of the other representation
into a versioned blob's ledger succeeds silently at record time; the
heterogeneity is detected when the accumulation check fires for that blob —
at its first (lowest-index) consumer, given more than one recorded use —
where `DoGradientAccumulation` fails fatally (wrapping the
"mix of sparse and dense gradients" verification error with the blob name),
so the backward pass aborts and no accumulation operators are emitted. -/
theorem c4_mixed_fails_at_accumulation (ir : IRState) (i : Nat)
    (entry : OpSSA) (n : String) (v : Nat)
    (hssa : ir.ssa[i]? = some entry)
    (hn : n ∈ dedupInputs entry.op.input)
    (hv : alookup entry.inVersions n = some v)
    (hlen : 1 < (usagesOf ir n v).length)
    (hhead : (usagesOf ir n v).head? = some i)
    (hmixD : (gensOf ir n v).any genIsDense = true)
    (hmixS : (gensOf ir n v).any genIsSparse = true) :
    (∃ e, DoGradientAccumulation ir i = Except.error e)
    ∧ (dedupInputs entry.op.input = [n] →
        DoGradientAccumulation ir i =
          Except.error ("Gradients for param ''" ++ n ++
            "'' failed to verify: " ++
            ("Automatic aggregation of a mix of sparse and dense " ++
              "gradients is not supported yet"))) := by
  constructor
  · rw [DoGradientAccumulation, hssa]
    exact accumLoop_error_of_mixed ir i entry hv hlen hhead hmixD hmixS _ hn
  · intro hone
    rw [DoGradientAccumulation, hssa]
    show accumLoop ir i entry (dedupInputs entry.op.input) = _
    rw [hone]
    simp only [accumLoop, hv]
    rw [if_neg (by push_neg; exact ⟨by omega, hhead⟩)]
    rw [verify_mixed_error hmixD hmixS]

/-- Witness for the amended C4: a ledger with one dense and one sparse
generator for blob `x` at version 0, used twice with first consumer 0 —
`DoGradientAccumulation` aborts with the wrapped heterogeneity error. -/
theorem c4_mixed_fails_at_accumulation_witness :
    DoGradientAccumulation c4WIR 0 =
      Except.error ("Gradients for param ''x'' failed to verify: " ++
        "Automatic aggregation of a mix of sparse and dense gradients " ++
        "is not supported yet") :=
  (c4_mixed_fails_at_accumulation c4WIR 0 c4Entry "x" 0 (by decide)
    (by decide) (by decide) (by decide) (by decide) (by decide)
    (by decide)).2 (by decide)

/-! ### C7 — backward-pass initialisation -/

theorem gfInitLoop_lookup_skip {ys : List (String × Grad)} {y : String}
    (hnot : y ∉ ys.map Prod.fst) :
    ∀ gf f, alookup (gfInitLoop ys gf f).1 y = alookup gf y := by
  induction ys with
  | nil => intro gf f; rfl
  | cons p rest ih =>
    intro gf f
    obtain ⟨y0, g0⟩ := p
    simp only [List.map_cons, List.mem_cons] at hnot
    push_neg at hnot
    rw [gfInitLoop, ih hnot.2, alookup_ainsert,
      if_neg (fun h => hnot.1 h.symm)]

theorem gfInitLoop_lookup {ys : List (String × Grad)}
    (hnodup : (ys.map Prod.fst).Nodup) :
    ∀ gf f y g, (y, g) ∈ ys →
      alookup (gfInitLoop ys gf f).1 y = some (dlookupD f y 0) := by
  induction ys with
  | nil => intro gf f y g h; simp at h
  | cons p rest ih =>
    obtain ⟨y0, g0⟩ := p
    simp only [List.map_cons, List.nodup_cons] at hnodup
    intro gf f y g hmem
    rw [gfInitLoop]
    rcases List.mem_cons.mp hmem with heq | hmem'
    · have hy : y = y0 := congrArg Prod.fst heq
      subst hy
      rw [gfInitLoop_lookup_skip hnodup.1, alookup_ainsert, if_pos rfl]
    · have hymem : y ∈ rest.map Prod.fst :=
        List.mem_map.mpr ⟨(y, g), hmem', rfl⟩
      have hne : ¬ y0 = y := fun h => hnodup.1 (h ▸ hymem)
      rw [ih hnodup.2 _ _ y g hmem']
      simp only [dlookupD, alookup_ainsert, if_neg hne]

theorem initGradients_lookup {ys : List (String × Grad)}
    (hnodup : (ys.map Prod.fst).Nodup) :
    ∀ y g, (y, g) ∈ ys →
      alookup (_GetInitGradients ys).1 y =
        some (if g = Grad.none then Grad.dense (y ++ "_autogen_grad")
              else g) := by
  induction ys with
  | nil => intro y g h; simp at h
  | cons p rest ih =>
    obtain ⟨y0, g0⟩ := p
    simp only [List.map_cons, List.nodup_cons] at hnodup
    intro y g hmem
    rcases List.mem_cons.mp hmem with heq | hmem'
    · have hy : y = y0 := congrArg Prod.fst heq
      have hg : g = g0 := congrArg Prod.snd heq
      subst hy; subst hg
      cases g with
      | none => simp [_GetInitGradients, alookup]
      | dense s => simp [_GetInitGradients, alookup]
      | sparse a b => simp [_GetInitGradients, alookup]
    · have hymem : y ∈ rest.map Prod.fst :=
        List.mem_map.mpr ⟨(y, g), hmem', rfl⟩
      have hne : ¬ y0 = y := fun h => hnodup.1 (h ▸ hymem)
      cases g0 with
      | none => simp [_GetInitGradients, alookup, hne, ih hnodup.2 y g hmem']
      | dense s =>
        simp [_GetInitGradients, alookup, hne, ih hnodup.2 y g hmem']
      | sparse a b =>
        simp [_GetInitGradients, alookup, hne, ih hnodup.2 y g hmem']

theorem initGradients_ops (ys : List (String × Grad)) :
    (_GetInitGradients ys).2 =
      (ys.filter fun p => p.2 = Grad.none).map
        (fun p => CreateOperator "ConstantFill" [p.1]
          [p.1 ++ "_autogen_grad"] [("value", 1)] Option.none) := by
  induction ys with
  | nil => rfl
  | cons p rest ih =>
    obtain ⟨y0, g0⟩ := p
    cases g0 with
    | none => simp [_GetInitGradients, List.filter_cons, ih]
    | dense s => simp [_GetInitGradients, List.filter_cons, ih]
    | sparse a b => simp [_GetInitGradients, List.filter_cons, ih]

/-- **C7.** At the start of a backward pass, for every target blob `y` the
Gradient Frontier of `y` is set to `y`'s final frontier version, and for
every target mapped to `none` a `ConstantFill` operator with fill value 1
producing the blob named `<y>_autogen_grad` is appended to the output
operator list and its output used as `y`'s seed gradient wrapper; targets
mapped to an explicit wrapper emit no seed operator. -/
theorem c7_backward_init (ir : IRState) (ys : List (String × Grad))
    (hnodup : (ys.map Prod.fst).Nodup) :
    (∀ y g, (y, g) ∈ ys →
      alookup (GetBackwardPassInit ir ys).1.gradientFrontier y =
        some (dlookupD ir.frontier y 0)
      ∧ alookup (GetBackwardPassInit ir ys).2.1 y =
        some (if g = Grad.none then Grad.dense (y ++ "_autogen_grad")
              else g))
    ∧ (GetBackwardPassInit ir ys).2.2 =
        (ys.filter fun p => p.2 = Grad.none).map
          (fun p => CreateOperator "ConstantFill" [p.1]
            [p.1 ++ "_autogen_grad"] [("value", 1)] Option.none) := by
  constructor
  · intro y g hmem
    constructor
    · show alookup (gfInitLoop ys ir.gradientFrontier ir.frontier).1 y = _
      exact gfInitLoop_lookup hnodup _ _ y g hmem
    · show alookup (_GetInitGradients ys).1 y = _
      exact initGradients_lookup hnodup y g hmem
  · show (_GetInitGradients ys).2 = _
    exact initGradients_ops ys

/-- Witness for C7: one `none`-seeded target (`y2`, which gets the
`ConstantFill` seed and wrapper `y2_autogen_grad`) and one explicitly
seeded target (`a`, which emits no operator). -/
theorem c7_backward_init_witness :
    (c7Ys.map Prod.fst).Nodup
    ∧ ((∀ y g, (y, g) ∈ c7Ys →
        alookup (GetBackwardPassInit c7IR c7Ys).1.gradientFrontier y =
          some (dlookupD c7IR.frontier y 0)
        ∧ alookup (GetBackwardPassInit c7IR c7Ys).2.1 y =
          some (if g = Grad.none then Grad.dense (y ++ "_autogen_grad")
                else g))
      ∧ (GetBackwardPassInit c7IR c7Ys).2.2 =
          (c7Ys.filter fun p => p.2 = Grad.none).map
            (fun p => CreateOperator "ConstantFill" [p.1]
              [p.1 ++ "_autogen_grad"] [("value", 1)] Option.none)) :=
  ⟨by decide, c7_backward_init c7IR c7Ys (by decide)⟩

/-! ### C8 — frontier monotonicity and the output count -/

theorem touchFold_append (s : Option Nat) (a b : List Touch) :
    touchFold s (a ++ b) = touchFold (touchFold s a) b := by
  simp [touchFold, List.foldl_append]

theorem touchFold_cons (s : Option Nat) (t : Touch) (ts : List Touch) :
    touchFold s (t :: ts) = touchFold (touchStep s t) ts := rfl

theorem inTouches_cons_eq (rest : List String) (b : String) :
    inTouches (b :: rest) b = Touch.inp :: inTouches rest b := by
  simp [inTouches]

theorem inTouches_cons_ne {s b : String} (h : ¬ s = b) (rest : List String) :
    inTouches (s :: rest) b = inTouches rest b := by
  simp [inTouches, h]

theorem outTouches_cons_eq (rest : List String) (b : String) :
    outTouches (b :: rest) b = Touch.out :: outTouches rest b := by
  simp [outTouches]

theorem outTouches_cons_ne {s b : String} (h : ¬ s = b)
    (rest : List String) : outTouches (s :: rest) b = outTouches rest b := by
  simp [outTouches, h]

theorem playInFrontier_lookup (b : String) : ∀ (ins : List String) f,
    alookup (playInFrontier ins f) b =
      touchFold (alookup f b) (inTouches ins b) := by
  intro ins
  induction ins with
  | nil => intro f; rfl
  | cons s rest ih =>
    intro f
    by_cases hsb : s = b
    · subst hsb
      rw [playInFrontier, ih, inTouches_cons_eq, touchFold_cons]
      congr 1
      rw [alookup_ainsert, if_pos rfl]
      cases h : alookup f s <;> simp [touchStep, dlookupD, h]
    · rw [playInFrontier, ih, inTouches_cons_ne hsb]
      congr 1
      rw [alookup_ainsert, if_neg hsb]

theorem playOutLoop_lookup (b : String) : ∀ (outs : List String) f ov,
    alookup (playOutLoop outs f ov).1 b =
      touchFold (alookup f b) (outTouches outs b) := by
  intro outs
  induction outs with
  | nil => intro f ov; rfl
  | cons s rest ih =>
    intro f ov
    cases hls : alookup f s with
    | some v =>
      simp only [playOutLoop, hls]
      rw [ih]
      by_cases hsb : s = b
      · subst hsb
        rw [outTouches_cons_eq, touchFold_cons]
        congr 1
        rw [alookup_ainsert, if_pos rfl, hls]
        rfl
      · rw [outTouches_cons_ne hsb]
        congr 1
        rw [alookup_ainsert, if_neg hsb]
    | none =>
      simp only [playOutLoop, hls]
      rw [ih]
      by_cases hsb : s = b
      · subst hsb
        rw [outTouches_cons_eq, touchFold_cons]
        congr 1
        rw [alookup_ainsert, if_pos rfl, hls]
        rfl
      · rw [outTouches_cons_ne hsb]
        congr 1
        rw [alookup_ainsert, if_neg hsb]

theorem Play_frontier_lookup (st : IRState) (op : Operator) (b : String) :
    alookup (Play st op).frontier b =
      touchFold (alookup st.frontier b) (opTouches op b) := by
  show alookup
      (playOutLoop op.output (playInFrontier op.input st.frontier) []).1 b = _
  rw [playOutLoop_lookup, playInFrontier_lookup, opTouches, touchFold_append]

theorem replay_frontier_lookup (b : String) : ∀ (ops : List Operator) st,
    alookup ((ops.foldl Play st).frontier) b =
      touchFold (alookup st.frontier b) (opsTouches ops b) := by
  intro ops
  induction ops with
  | nil => intro st; rfl
  | cons op rest ih =>
    intro st
    rw [List.foldl_cons, ih, Play_frontier_lookup]
    simp [opsTouches, touchFold_append]

theorem touchStep_mono (s : Option Nat) (t : Touch) :
    s.getD 0 ≤ (touchStep s t).getD 0 := by
  cases s <;> cases t <;> simp [touchStep]

theorem touchFold_mono (ts : List Touch) : ∀ s : Option Nat,
    s.getD 0 ≤ (touchFold s ts).getD 0 := by
  induction ts with
  | nil => intro s; exact le_refl _
  | cons t ts ih =>
    intro s
    exact le_trans (touchStep_mono s t) (ih _)

theorem touchFold_some (ts : List Touch) : ∀ v,
    touchFold (some v) ts = some (v + ts.count Touch.out) := by
  induction ts with
  | nil => intro v; simp [touchFold]
  | cons t ts ih =>
    intro v
    cases t with
    | inp =>
      rw [touchFold_cons]
      show touchFold (some v) ts = _
      rw [ih]
      simp [List.count_cons]
    | out =>
      rw [touchFold_cons]
      show touchFold (some (v + 1)) ts = _
      rw [ih]
      simp only [List.count_cons, Option.some.injEq]
      simp
      omega

theorem touchFold_none_val (ts : List Touch) :
    (touchFold Option.none ts).getD 0 =
      ts.count Touch.out - headOutAdj ts := by
  cases ts with
  | nil => rfl
  | cons t ts =>
    rw [touchFold_cons]
    have hstep : touchStep Option.none t = some 0 := by cases t <;> rfl
    rw [hstep, touchFold_some ts 0]
    cases t with
    | inp => simp [headOutAdj, List.count_cons]
    | out =>
      simp only [headOutAdj, List.count_cons, Option.getD_some]
      simp
  
theorem inTouches_count_out (b : String) : ∀ ins : List String,
    (inTouches ins b).count Touch.out = 0 := by
  intro ins
  induction ins with
  | nil => rfl
  | cons s rest ih =>
    by_cases hsb : s = b
    · subst hsb
      rw [inTouches_cons_eq]
      simp [List.count_cons, ih]
    · rw [inTouches_cons_ne hsb]
      exact ih

theorem outTouches_count (b : String) : ∀ outs : List String,
    (outTouches outs b).count Touch.out = outs.count b := by
  intro outs
  induction outs with
  | nil => rfl
  | cons s rest ih =>
    by_cases hsb : s = b
    · subst hsb
      rw [outTouches_cons_eq]
      simp [List.count_cons, ih]
    · rw [outTouches_cons_ne hsb]
      simp [List.count_cons, ih, hsb]

theorem opsTouches_count (b : String) : ∀ ops : List Operator,
    (opsTouches ops b).count Touch.out = outputCount ops b := by
  intro ops
  induction ops with
  | nil => rfl
  | cons op rest ih =>
    show ((opTouches op b ++ opsTouches rest b).count Touch.out) = _
    rw [List.count_append, ih]
    show ((inTouches op.input b ++ outTouches op.output b).count Touch.out)
        + _ = _
    rw [List.count_append, inTouches_count_out, outTouches_count]
    simp only [outputCount, List.map_cons, List.flatten_cons,
      List.count_append]
    omega

theorem replay_frontier_count (P : List Operator) (b : String) :
    dlookupD (replay P).frontier b 0 =
      outputCount P b - headOutAdj (opsTouches P b) := by
  unfold dlookupD
  rw [replay, replay_frontier_lookup]
  show (touchFold Option.none (opsTouches P b)).getD 0 = _
  rw [touchFold_none_val, opsTouches_count]

/-- **C8 counterexample.** A blob first referenced as an output is seeded at
frontier version 0, not 1: after replaying the single operator
`b = A()` the frontier of `b` is 0 while `b` appeared once as an output, so
"frontier equals the output count" fails. -/
theorem c8_counterexample :
    dlookupD (replay [c8Op]).frontier "b" 0 = 0
    ∧ outputCount [c8Op] "b" = 1
    ∧ dlookupD (replay [c8Op]).frontier "b" 0 ≠ outputCount [c8Op] "b" :=
  ⟨by decide, by decide, by decide⟩

/-- **C8 (amended).** For every forward operator sequence and every blob
`b`, the frontier version of `b` after replaying operator `i` is ≥ its
value after replaying operator `i-1`, and equals the number of times `b`
appeared as an output among operators `0..i` *minus one* when the first
reference to `b` in that prefix (inputs of an operator being processed
before its outputs) is an output — the source seeds a freshly written
blob's frontier entry at version 0 instead of incrementing. -/
theorem c8_frontier_monotone_count (ops : List Operator) (b : String)
    (i : Nat) (h : i < ops.length) :
    dlookupD (replay (ops.take i)).frontier b 0 ≤
      dlookupD (replay (ops.take (i + 1))).frontier b 0
    ∧ dlookupD (replay (ops.take (i + 1))).frontier b 0 =
        outputCount (ops.take (i + 1)) b -
          headOutAdj (opsTouches (ops.take (i + 1)) b) := by
  refine ⟨?_, replay_frontier_count _ b⟩
  rw [List.take_succ]
  have hopi : ops[i]? = some ops[i] := List.getElem?_eq_getElem h
  rw [hopi]
  show dlookupD (replay (ops.take i)).frontier b 0 ≤
    dlookupD (replay (ops.take i ++ [ops[i]])).frontier b 0
  unfold dlookupD
  rw [replay, replay, List.foldl_append]
  rw [show List.foldl Play (List.foldl Play emptyIR (ops.take i)) [ops[i]] =
    Play (List.foldl Play emptyIR (ops.take i)) ops[i] from rfl]
  rw [Play_frontier_lookup]
  exact touchFold_mono _ _

/-- Witness for the amended C8: an operator reading and overwriting `b`
(`b` first referenced as an input), where the frontier after it is 1 = its
output count with no adjustment. -/
theorem c8_frontier_monotone_count_witness :
    0 < [c8WOp].length
    ∧ (dlookupD (replay ([c8WOp].take 0)).frontier "b" 0 ≤
        dlookupD (replay ([c8WOp].take 1)).frontier "b" 0
       ∧ dlookupD (replay ([c8WOp].take 1)).frontier "b" 0 =
          outputCount ([c8WOp].take 1) "b" -
            headOutAdj (opsTouches ([c8WOp].take 1) "b")) :=
  ⟨by decide, c8_frontier_monotone_count [c8WOp] "b" 0 (by decide)⟩

/-! ### C1 — when accumulation fires -/

theorem computeUsages_inv (f : List (String × Nat)) (idx : Nat) :
    ∀ (ins : List String) us, UsageBnd us idx →
      UsageBnd (computeUsages f idx ins us) idx := by
  intro ins
  induction ins with
  | nil => intro us h; exact h
  | cons s rest ih =>
    intro us h
    rw [computeUsages]
    apply ih
    intro k
    by_cases hk : (s, dlookupD f s 0) = k
    · rw [alookup_ainsert, if_pos hk]
      constructor
      · rw [Option.getD_some, List.pairwise_append]
        refine ⟨(h _).1, List.pairwise_singleton _ _, ?_⟩
        intro a ha b hb
        rw [List.mem_singleton] at hb
        subst hb
        exact (h _).2 a ha
      · intro j hj
        rw [Option.getD_some] at hj
        rcases List.mem_append.mp hj with hj | hj
        · exact (h _).2 j hj
        · rw [List.mem_singleton] at hj
          omega
    · rw [alookup_ainsert, if_neg hk]
      exact h k

theorem Play_usage_inv {st : IRState} {op : Operator}
    (h : UsageStrict st.inputUsages st.ssa.length) :
    UsageStrict (Play st op).inputUsages (Play st op).ssa.length := by
  have h1 : UsageBnd st.inputUsages st.ssa.length :=
    fun k => ⟨(h k).1, fun j hj => Nat.le_of_lt ((h k).2 j hj)⟩
  have h2 := computeUsages_inv st.frontier st.ssa.length op.input
    st.inputUsages h1
  intro k
  refine ⟨(h2 k).1, fun j hj => ?_⟩
  have hle := (h2 k).2 j hj
  have hlen : (Play st op).ssa.length = st.ssa.length + 1 := by
    simp [Play]
  omega

theorem replay_usage_inv (ops : List Operator) :
    UsageStrict (replay ops).inputUsages (replay ops).ssa.length := by
  suffices h : ∀ st, UsageStrict st.inputUsages st.ssa.length →
      UsageStrict (ops.foldl Play st).inputUsages
        (ops.foldl Play st).ssa.length by
    refine h emptyIR fun k => ⟨?_, fun j hj => ?_⟩
    · show List.Pairwise _ ((alookup [] k).getD [])
      exact List.Pairwise.nil
    · simp [emptyIR, alookup] at hj
  induction ops with
  | nil => intro st h; exact h
  | cons op rest ih =>
    intro st h
    rw [List.foldl_cons]
    exact ih _ (Play_usage_inv h)

theorem pairwise_head_min {l : List Nat} {i : Nat}
    (hp : l.Pairwise (· ≤ ·)) (hh : l.head? = some i) :
    ∀ j ∈ l, i ≤ j := by
  cases l with
  | nil => cases hh
  | cons a l =>
    injection hh with hh
    subst hh
    intro j hj
    rcases List.mem_cons.mp hj with hj | hj
    · omega
    · exact (List.pairwise_cons.mp hp).1 j hj

theorem accumLoop_ok_mem (ir : IRState) (i : Nat) (entry : OpSSA) :
    ∀ names ops gm, accumLoop ir i entry names = Except.ok (ops, gm) →
      ∀ n g, (n, g) ∈ gm →
        ∃ v, alookup entry.inVersions n = some v
          ∧ 1 < (usagesOf ir n v).length
          ∧ (usagesOf ir n v).head? = some i
          ∧ 2 ≤ (gensOf ir n v).length := by
  intro names
  induction names with
  | nil =>
    intro ops gm h n g hmem
    rw [accumLoop] at h
    injection h with h
    injection h with h1 h2
    subst h2
    simp at hmem
  | cons m rest ih =>
    intro ops gm h n g hmem
    simp only [accumLoop] at h
    split at h
    · cases h
    · rename_i vm halm
      split at h
      · exact ih _ _ h n g hmem
      · rename_i hskip
        split at h
        · cases h
        · exact ih _ _ h n g hmem
        · rename_i hver
          split at h
          · cases h
          · rename_i p hmk
            split at h
            · cases h
            · rename_i ops' gm' hrec
              injection h with h
              injection h with h1 h2
              subst h2
              rcases List.mem_cons.mp hmem with heq | hmem'
              · have hn : n = m := congrArg Prod.fst heq
                subst hn
                push_neg at hskip
                exact ⟨vm, halm, by omega, hskip.2,
                  verify_true_ge2 hver⟩
              · exact ih _ _ hrec n g hmem'

/-- **C1.** During the reverse walk, accumulation is synthesized by
`DoGradientAccumulation` at forward index `i` for a distinct input name `n`
with recorded input version `v` only when the Input Usage Table lists more
than one consumer for `(n, v)`, `i` is the lowest-index of those consumers
(the head of the usage list, which is ≤-sorted for any table built by
`replay`), and the generator ledger for `(n, v)` has at least 2 entries; in
particular, a versioned blob with exactly one recorded consumer never gets
an accumulation entry. -/
theorem c1_accumulation_guard (fops : List Operator) (ir : IRState) (i : Nat)
    (ops : List Operator) (gm : List (String × Grad))
    (husage : ir.inputUsages = (replay fops).inputUsages)
    (h : DoGradientAccumulation ir i = Except.ok (ops, gm)) :
    (∀ n g, (n, g) ∈ gm →
      ∃ entry v, ir.ssa[i]? = some entry
        ∧ alookup entry.inVersions n = some v
        ∧ 1 < (usagesOf ir n v).length
        ∧ (usagesOf ir n v).head? = some i
        ∧ (∀ j ∈ usagesOf ir n v, i ≤ j)
        ∧ 2 ≤ (gensOf ir n v).length)
    ∧ (∀ entry, ir.ssa[i]? = some entry →
        ∀ n v, alookup entry.inVersions n = some v →
          (usagesOf ir n v).length = 1 → ∀ g, (n, g) ∉ gm) := by
  cases hssa : ir.ssa[i]? with
  | none =>
    rw [DoGradientAccumulation, hssa] at h
    cases h
  | some entry =>
    simp only [DoGradientAccumulation, hssa] at h
    have hmain := accumLoop_ok_mem ir i entry _ ops gm h
    constructor
    · intro n g hmem
      obtain ⟨v, hv, hlen, hhead, hgens⟩ := hmain n g hmem
      have hlist : usagesOf ir n v =
          (alookup (replay fops).inputUsages (n, v)).getD [] := by
        rw [usagesOf, husage]
      refine ⟨entry, v, rfl, hv, hlen, hhead, fun j hj => ?_, hgens⟩
      exact pairwise_head_min ((replay_usage_inv fops (n, v)).1)
        (hlist ▸ hhead) j (hlist ▸ hj)
    · intro entry' hssa' n v hv hone g hmem
      injection hssa' with hssa'
      subst hssa'
      obtain ⟨v', hv', hlen, _, _⟩ := hmain n g hmem
      rw [hv] at hv'
      injection hv' with hv'
      subst hv'
      omega

/-- Witness for C1: `x` is consumed by operators 0 and 1 and holds two
ledger entries; at its first consumer (index 0) one `Sum` operator and one
grad-map entry are produced, and the guard conditions all hold. -/
theorem c1_accumulation_guard_witness :
    DoGradientAccumulation c1IR 0 = Except.ok (c1SumOps, c1GradMap)
    ∧ ((∀ n g, (n, g) ∈ c1GradMap →
        ∃ entry v, c1IR.ssa[0]? = some entry
          ∧ alookup entry.inVersions n = some v
          ∧ 1 < (usagesOf c1IR n v).length
          ∧ (usagesOf c1IR n v).head? = some 0
          ∧ (∀ j ∈ usagesOf c1IR n v, 0 ≤ j)
          ∧ 2 ≤ (gensOf c1IR n v).length)
      ∧ (∀ entry, c1IR.ssa[0]? = some entry →
          ∀ n v, alookup entry.inVersions n = some v →
            (usagesOf c1IR n v).length = 1 → ∀ g, (n, g) ∉ c1GradMap)) :=
  ⟨by decide,
   c1_accumulation_guard c1Fops c1IR 0 c1SumOps c1GradMap rfl (by decide)⟩
